import Mathlib

/-!
Verification development for the mini-coding-agent repository.

This file shallowly embeds the relevant parts of `multi_agent_system.py` and
`planner_node.py` in Lean 4 and proves properties about the embedding.

Conventions of the embedding:
* Python strings are Lean `String`s (we work on their `List Char` data where
  convenient).  All modelled character-class predicates (`\w`, whitespace)
  use their ASCII meaning; the repository only manipulates ASCII commands,
  paths and code text.
* Filesystem state is an association list from resolved path components to
  file content.  POSIX is assumed (so text-mode writing of `\n` is the
  identity, while text-mode reading applies universal-newline translation).
* Fallible Python code is modelled with `Except`/error-string returns, in
  the same places the Python code catches exceptions.
-/

set_option maxHeartbeats 1000000

/-- A single quote character, used when building the error strings the
Python code produces with f-strings. -/
def apos : String := String.singleton (Char.ofNat 39)

/-- Python `str.isspace`-style whitespace test restricted to the ASCII
whitespace characters that `str.strip()` and `str.split()` remove. -/
def pyIsSpace (c : Char) : Bool :=
  c = ' ' || c = '\t' || c = '\n' || c = '\r' ||
  c = Char.ofNat 11 || c = Char.ofNat 12

/-- Python `str.strip()` (no argument): drop whitespace on both ends. -/
def pyStrip (s : String) : String :=
  String.mk (((s.data.dropWhile pyIsSpace).reverse.dropWhile pyIsSpace).reverse)

/-- Helper for `pySplit`: split a character list on runs of whitespace. -/
def pySplitAux : List Char → List Char → List String
  | [], acc => if acc.isEmpty then [] else [String.mk acc.reverse]
  | c :: rest, acc =>
      if pyIsSpace c then
        if acc.isEmpty then pySplitAux rest []
        else String.mk acc.reverse :: pySplitAux rest []
      else pySplitAux rest (c :: acc)

/-- Python `str.split()` (no argument): split on runs of whitespace,
discarding empty pieces. -/
def pySplit (s : String) : List String := pySplitAux s.data []

/-- ASCII lower-casing, modelling Python `str.lower()` on ASCII text. -/
def strLower (s : String) : String := String.mk (s.data.map Char.toLower)

/-- Substring containment at a given offset of a character list. -/
def subAt (s sub : List Char) (i : Nat) : Bool :=
  decide ((s.drop i).take sub.length = sub)

/-- Python `sub in s` substring containment. -/
def containsSub (s sub : String) : Bool :=
  (List.range (s.data.length + 1)).any (fun i => subAt s.data sub.data i)

/-- Python `s.startswith(pre)` (also modelling Lean-independent prefix
tests on strings). -/
def pyStartswith (s pre : String) : Bool :=
  decide (s.data.take pre.data.length = pre.data)

/-- Characters Python `str.splitlines` treats as line boundaries. -/
def isLineBreakChar (c : Char) : Bool :=
  c = '\n' || c = '\r' || c = Char.ofNat 11 || c = Char.ofNat 12 ||
  c = Char.ofNat 28 || c = Char.ofNat 29 || c = Char.ofNat 30 ||
  c = Char.ofNat 133 || c = Char.ofNat 8232 || c = Char.ofNat 8233

/-- Helper for `pySplitlinesKeepends`; `\r\n` counts as a single break. -/
def splitlinesAux : List Char → List Char → List (List Char)
  | [], acc => if acc.isEmpty then [] else [acc.reverse]
  | '\r' :: '\n' :: rest, acc => (acc.reverse ++ ['\r', '\n']) :: splitlinesAux rest []
  | c :: rest, acc =>
      if isLineBreakChar c then (acc.reverse ++ [c]) :: splitlinesAux rest []
      else splitlinesAux rest (c :: acc)

/-- Python `str.splitlines(keepends=True)`. -/
def pySplitlinesKeepends (s : String) : List String :=
  (splitlinesAux s.data []).map String.mk

/-- Universal-newline translation performed by text-mode `open(...)` reads:
`\r\n` and lone `\r` become `\n`. -/
def transNLAux : List Char → List Char
  | [] => []
  | '\r' :: '\n' :: rest => '\n' :: transNLAux rest
  | '\r' :: rest => '\n' :: transNLAux rest
  | c :: rest => c :: transNLAux rest

/-- Universal-newline translation on strings. -/
def translateNewlines (s : String) : String := String.mk (transNLAux s.data)

/-- Helper for `readlinesOf`: split after each `\n`, keeping the ends. -/
def splitKeepNLAux : List Char → List Char → List (List Char)
  | [], acc => if acc.isEmpty then [] else [acc.reverse]
  | c :: rest, acc =>
      if c = '\n' then (acc.reverse ++ ['\n']) :: splitKeepNLAux rest []
      else splitKeepNLAux rest (c :: acc)

/-- Python `f.readlines()` on a text-mode file whose stored content is `s`:
universal-newline translation followed by splitting after each `\n`. -/
def readlinesOf (s : String) : List String :=
  ((splitKeepNLAux (transNLAux s.data) []).map String.mk)

/-! ## The difflib model

A faithful executable model of the parts of CPython's `difflib` used by
`_generate_diff`: `SequenceMatcher(None, a, b)` (so `isjunk` is `None`,
`bjunk` is empty, and autojunk popularity filtering applies for sequences of
at least 200 elements), `get_matching_blocks`, `get_opcodes`,
`get_grouped_opcodes(3)` and `unified_diff(..., lineterm="")`.
Loops whose Python termination argument is not structural are given an
explicit fuel argument; each call site passes fuel that dominates the
number of iterations the Python loop can perform (justified in comments),
so the model coincides with the Python semantics. -/

abbrev Line := String

/-- Number of occurrences of `x` in `b`. -/
def countElem (b : List Line) (x : Line) : Nat :=
  (b.filter (fun y => y = x)).length

/-- The autojunk "popular" test of `SequenceMatcher.__chain_b`: with
`isjunk = None`, an element is dropped from `b2j` iff `len(b) >= 200` and it
occurs more than `len(b) // 100 + 1` times. -/
def isPopular (b : List Line) (x : Line) : Bool :=
  decide (200 ≤ b.length) && decide (b.length / 100 + 1 < countElem b x)

/-- `b2j.get(x, [])`: the ascending list of positions of `x` in `b`, or `[]`
when `x` was purged as popular. -/
def b2jGet (b : List Line) (x : Line) : List Nat :=
  if isPopular b x then []
  else (List.range b.length).filter (fun j => decide (b.get? j = some x))

/-- The inner loop of `find_longest_match` iterates `b2j.get(a[i], [])` in
ascending order, skipping `j < blo` (`continue`) and stopping at
`j >= bhi` (`break`); on the ascending list this equals a filter. -/
def windowPositions (b : List Line) (x : Line) (blo bhi : Nat) : List Nat :=
  (b2jGet b x).filter (fun j => decide (blo ≤ j) && decide (j < bhi))

/-- `j2len` dictionaries are association lists from `j` to a run length. -/
abbrev J2Len := List (Nat × Nat)

/-- `j2len.get(k, 0)`. -/
def dgetD (d : J2Len) (k : Nat) : Nat :=
  match d.find? (fun e => decide (e.1 = k)) with
  | some e => e.2
  | none => 0

/-- `j2len.get(j-1, 0)` with Python semantics: for `j = 0` the key is `-1`,
which is never present, so the default 0 is returned. -/
def dgetPred (d : J2Len) : Nat → Nat
  | 0 => 0
  | j + 1 => dgetD d j

/-- The `Match` named tuple of difflib. -/
structure Match3 where
  a : Nat
  b : Nat
  size : Nat
deriving DecidableEq

/-- One step of the inner loop of `find_longest_match` for row `i`:
`k = newj2len[j] = j2len.get(j-1, 0) + 1`, updating the best match when
`k > bestsize`.  `prev` is the dictionary of the previous row.
Python's `i-k+1` is written `i+1-k` so the integer arithmetic is preserved
under Nat subtraction (difflib guarantees `k ≤ i+1` and `k ≤ j+1`). -/
def innerStep (prev : J2Len) (i : Nat) (st : J2Len × Match3) (j : Nat) :
    J2Len × Match3 :=
  let k := dgetPred prev j + 1
  let nd := st.1 ++ [(j, k)]
  let nb := if st.2.size < k then ⟨i + 1 - k, j + 1 - k, k⟩ else st.2
  (nd, nb)

/-- One row of the dictionary phase of `find_longest_match`. -/
def rowStep (a b : List Line) (blo bhi : Nat) (st : J2Len × Match3) (i : Nat) :
    J2Len × Match3 :=
  let js := match a.get? i with
    | some x => windowPositions b x blo bhi
    | none => []
  js.foldl (innerStep st.1 i) ([], st.2)

/-- The full dictionary phase of `find_longest_match`: rows `alo..ahi-1`,
starting from `besti, bestj, bestsize = alo, blo, 0` and an empty `j2len`. -/
def dictPhase (a b : List Line) (alo ahi blo bhi : Nat) : Match3 :=
  ((List.range' alo (ahi - alo)).foldl (rowStep a b blo bhi)
    ([], ⟨alo, blo, 0⟩)).2

/-- `self.bjunk` with `isjunk = None` is the empty set. -/
def isBJunk (_x : Line) : Bool := false

/-- First extension loop: extend the best match backwards over non-junk
equal elements.  Fuel dominates the iteration count: each iteration
decrements `besti`, which stays above `alo ≥ 0`, so `besti` fuel suffices.
Indexing is via `get?` with an unused default for the junk test; the loop
guards keep all reachable accesses in range. -/
def extendBackFuel (a b : List Line) (alo blo : Nat) :
    Nat → Nat → Nat → Nat → Match3
  | 0, bi, bj, bs => ⟨bi, bj, bs⟩
  | fuel + 1, bi, bj, bs =>
      if alo < bi ∧ blo < bj ∧ ¬ isBJunk ((b.get? (bj - 1)).getD "") ∧
         a.get? (bi - 1) = b.get? (bj - 1) then
        extendBackFuel a b alo blo fuel (bi - 1) (bj - 1) (bs + 1)
      else ⟨bi, bj, bs⟩

/-- Second extension loop: extend forwards over non-junk equal elements.
Fuel dominates the iterations: each one increments `bestsize`, which stays
below `ahi`, so `ahi` fuel suffices. -/
def extendFwdFuel (a b : List Line) (ahi bhi : Nat) :
    Nat → Nat → Nat → Nat → Match3
  | 0, bi, bj, bs => ⟨bi, bj, bs⟩
  | fuel + 1, bi, bj, bs =>
      if bi + bs < ahi ∧ bj + bs < bhi ∧ ¬ isBJunk ((b.get? (bj + bs)).getD "") ∧
         a.get? (bi + bs) = b.get? (bj + bs) then
        extendFwdFuel a b ahi bhi fuel bi bj (bs + 1)
      else ⟨bi, bj, bs⟩

/-- Third extension loop (junk, backwards).  `isjunk` is `None` so `bjunk`
is empty and this loop never iterates; it is kept for faithfulness. -/
def extendJunkBackFuel (a b : List Line) (alo blo : Nat) :
    Nat → Nat → Nat → Nat → Match3
  | 0, bi, bj, bs => ⟨bi, bj, bs⟩
  | fuel + 1, bi, bj, bs =>
      if alo < bi ∧ blo < bj ∧ isBJunk ((b.get? (bj - 1)).getD "") ∧
         a.get? (bi - 1) = b.get? (bj - 1) then
        extendJunkBackFuel a b alo blo fuel (bi - 1) (bj - 1) (bs + 1)
      else ⟨bi, bj, bs⟩

/-- Fourth extension loop (junk, forwards); never iterates, kept for
faithfulness. -/
def extendJunkFwdFuel (a b : List Line) (ahi bhi : Nat) :
    Nat → Nat → Nat → Nat → Match3
  | 0, bi, bj, bs => ⟨bi, bj, bs⟩
  | fuel + 1, bi, bj, bs =>
      if bi + bs < ahi ∧ bj + bs < bhi ∧ isBJunk ((b.get? (bj + bs)).getD "") ∧
         a.get? (bi + bs) = b.get? (bj + bs) then
        extendJunkFwdFuel a b ahi bhi fuel bi bj (bs + 1)
      else ⟨bi, bj, bs⟩

/-- `SequenceMatcher.find_longest_match(alo, ahi, blo, bhi)` for
`SequenceMatcher(None, a, b)`. -/
def find_longest_match (a b : List Line) (alo ahi blo bhi : Nat) : Match3 :=
  let d := dictPhase a b alo ahi blo bhi
  let e1 := extendBackFuel a b alo blo d.a d.a d.b d.size
  let e2 := extendFwdFuel a b ahi bhi ahi e1.a e1.b e1.size
  let e3 := extendJunkBackFuel a b alo blo e2.a e2.a e2.b e2.size
  extendJunkFwdFuel a b ahi bhi ahi e3.a e3.b e3.size

/-- A `(alo, ahi, blo, bhi)` range on the queue of `get_matching_blocks`. -/
abbrev QRange := Nat × Nat × Nat × Nat

/-- The queue loop of `get_matching_blocks`.  Python pops from the end of
the list and pushes `(alo,i,blo,j)` then `(i+k,ahi,j+k,bhi)`; we keep the
stack top at the head, so the second push lands at the head.  One fuel unit
is spent per pop; each pop strictly decreases the measure
`sum of (ahi-alo)+(bhi-blo)+1` over the queue, so fuel
`la + lb + 1` (the initial measure) dominates the number of pops. -/
def mbLoop (a b : List Line) : Nat → List QRange → List Match3 → List Match3
  | 0, _, acc => acc
  | _ + 1, [], acc => acc
  | fuel + 1, (alo, ahi, blo, bhi) :: rest, acc =>
      let m := find_longest_match a b alo ahi blo bhi
      if 0 < m.size then
        let q1 := if alo < m.a ∧ blo < m.b then [(alo, m.a, blo, m.b)] else []
        let q2 := if m.a + m.size < ahi ∧ m.b + m.size < bhi then
            [(m.a + m.size, ahi, m.b + m.size, bhi)] else []
        mbLoop a b fuel (q2 ++ q1 ++ rest) (acc ++ [m])
      else mbLoop a b fuel rest acc

/-- Lexicographic order on match triples, as Python tuple comparison. -/
def matchLE (x y : Match3) : Bool :=
  decide (x.a < y.a) ||
  (decide (x.a = y.a) && (decide (x.b < y.b) ||
    (decide (x.b = y.b) && decide (x.size ≤ y.size))))

/-- Insert into a sorted list (used to model `list.sort()`; ties are whole
equal tuples, so any comparison sort yields the same list). -/
def insertSorted (x : Match3) : List Match3 → List Match3
  | [] => [x]
  | y :: rest => if matchLE x y then x :: y :: rest else y :: insertSorted x rest

/-- `matching_blocks.sort()`. -/
def sortBlocks : List Match3 → List Match3
  | [] => []
  | x :: rest => insertSorted x (sortBlocks rest)

/-- The adjacent-block collapsing loop of `get_matching_blocks`, starting
from `i1 = j1 = k1 = 0`. -/
def mergeLoop : Match3 → List Match3 → List Match3
  | ⟨i1, j1, k1⟩, [] => if k1 ≠ 0 then [⟨i1, j1, k1⟩] else []
  | ⟨i1, j1, k1⟩, ⟨i2, j2, k2⟩ :: rest =>
      if i1 + k1 = i2 ∧ j1 + k1 = j2 then mergeLoop ⟨i1, j1, k1 + k2⟩ rest
      else if k1 ≠ 0 then ⟨i1, j1, k1⟩ :: mergeLoop ⟨i2, j2, k2⟩ rest
      else mergeLoop ⟨i2, j2, k2⟩ rest

/-- `SequenceMatcher.get_matching_blocks()`. -/
def get_matching_blocks (a b : List Line) : List Match3 :=
  let raw := mbLoop a b (a.length + b.length + 1) [(0, a.length, 0, b.length)] []
  mergeLoop ⟨0, 0, 0⟩ (sortBlocks raw) ++ [⟨a.length, b.length, 0⟩]

/-- Opcode tags of difflib. -/
inductive Tag where
  | replace
  | delete
  | insert
  | equal
deriving DecidableEq

/-- One `(tag, i1, i2, j1, j2)` opcode. -/
structure Op where
  tag : Tag
  i1 : Nat
  i2 : Nat
  j1 : Nat
  j2 : Nat
deriving DecidableEq

/-- The loop of `get_opcodes` over the matching blocks. -/
def opcodesLoop : Nat → Nat → List Match3 → List Op
  | _, _, [] => []
  | i, j, ⟨ai, bj, size⟩ :: rest =>
      let gap : List Op :=
        if i < ai ∧ j < bj then [⟨.replace, i, ai, j, bj⟩]
        else if i < ai then [⟨.delete, i, ai, j, bj⟩]
        else if j < bj then [⟨.insert, i, ai, j, bj⟩]
        else []
      let eqp : List Op :=
        if size ≠ 0 then [⟨.equal, ai, ai + size, bj, bj + size⟩] else []
      gap ++ eqp ++ opcodesLoop (ai + size) (bj + size) rest

/-- `SequenceMatcher.get_opcodes()`. -/
def get_opcodes (a b : List Line) : List Op :=
  opcodesLoop 0 0 (get_matching_blocks a b)

/-- `codes[0]` fixup of `get_grouped_opcodes` when it is an `equal`. -/
def clampFirst (n : Nat) : List Op → List Op
  | ⟨.equal, i1, i2, j1, j2⟩ :: rest =>
      ⟨.equal, max i1 (i2 - n), i2, max j1 (j2 - n), j2⟩ :: rest
  | l => l

/-- `codes[-1]` fixup of `get_grouped_opcodes` when it is an `equal`. -/
def clampLast (n : Nat) : List Op → List Op
  | [] => []
  | [⟨.equal, i1, i2, j1, j2⟩] => [⟨.equal, i1, min i2 (i1 + n), j1, min j2 (j1 + n)⟩]
  | c :: rest => c :: clampLast n rest

/-- The grouping loop of `get_grouped_opcodes`: a big interior `equal`
closes the current group (with clamped context) and starts the next one
with the clamped tail of that `equal`; at the end the pending group is
emitted unless it is a single `equal`. -/
def groupedLoop (n nn : Nat) : List Op → List Op → List (List Op)
  | group, [] =>
      if group ≠ [] ∧ ¬ (group.length = 1 ∧ (group.headD ⟨.equal,0,0,0,0⟩).tag = .equal)
      then [group] else []
  | group, ⟨tag, i1, i2, j1, j2⟩ :: rest =>
      if tag = .equal ∧ nn < i2 - i1 then
        (group ++ [⟨tag, i1, min i2 (i1 + n), j1, min j2 (j1 + n)⟩]) ::
          groupedLoop n nn [⟨tag, max i1 (i2 - n), i2, max j1 (j2 - n), j2⟩] rest
      else groupedLoop n nn (group ++ [⟨tag, i1, i2, j1, j2⟩]) rest

/-- `SequenceMatcher.get_grouped_opcodes(n)`. -/
def get_grouped_opcodes (a b : List Line) (n : Nat) : List (List Op) :=
  let codes := get_opcodes a b
  let codes := if codes = [] then [⟨.equal, 0, 1, 0, 1⟩] else codes
  let codes := clampLast n (clampFirst n codes)
  groupedLoop n (n + n) [] codes

/-- `difflib._format_range_unified`. -/
def format_range_unified (start stop : Nat) : String :=
  let beginning := start + 1
  let length := stop - start
  if length = 1 then toString beginning
  else (toString (if length = 0 then start else beginning)) ++ "," ++ toString length

/-- Python list slice `l[i1:i2]` for `0 ≤ i1 ≤ i2`. -/
def pySlice (l : List Line) (i1 i2 : Nat) : List Line :=
  (l.drop i1).take (i2 - i1)

/-- The lines one group contributes to the unified diff (hunk header plus
prefixed body lines), with `lineterm = ""`. -/
def hunkLines (a b : List Line) (g : List Op) : List String :=
  let first := g.headD ⟨.equal, 0, 0, 0, 0⟩
  let last := g.getLastD ⟨.equal, 0, 0, 0, 0⟩
  ("@@ -" ++ format_range_unified first.i1 last.i2 ++ " +" ++
    format_range_unified first.j1 last.j2 ++ " @@") ::
  (g.map (fun op =>
    if op.tag = .equal then (pySlice a op.i1 op.i2).map (fun l => " " ++ l)
    else
      (if op.tag = .replace ∨ op.tag = .delete then
        (pySlice a op.i1 op.i2).map (fun l => "-" ++ l) else []) ++
      (if op.tag = .replace ∨ op.tag = .insert then
        (pySlice b op.j1 op.j2).map (fun l => "+" ++ l) else []))).flatten

/-- `difflib.unified_diff(a, b, fromfile, tofile, lineterm="")` with the
default `n = 3` and empty dates, as called by `_generate_diff`. -/
def unified_diff (a b : List Line) (fromfile tofile : String) : List String :=
  match get_grouped_opcodes a b 3 with
  | [] => []
  | groups => ["--- " ++ fromfile, "+++ " ++ tofile] ++
      (groups.map (hunkLines a b)).flatten

/-- The diff payload `_generate_diff` returns. -/
structure DiffInfo where
  diff_text : String
  added_lines : Nat
  removed_lines : Nat
  total_changes : Nat
deriving DecidableEq

/-- `_generate_diff(before_content, after_content, file_path)` from
`multi_agent_system.py` (lines 117-145). -/
def generate_diff (before_content after_content file_path : String) : DiffInfo :=
  let before_lines := pySplitlinesKeepends before_content
  let after_lines := pySplitlinesKeepends after_content
  let diff_lines := unified_diff before_lines after_lines
      ("a/" ++ file_path) ("b/" ++ file_path)
  let added := (diff_lines.filter (fun l =>
      pyStartswith l "+" && ! pyStartswith l "+++")).length
  let removed := (diff_lines.filter (fun l =>
      pyStartswith l "-" && ! pyStartswith l "---")).length
  ⟨String.join diff_lines, added, removed, added + removed⟩

/-! ## Sandboxed paths and the filesystem model

`_get_safe_path` (multi_agent_system.py lines 102-114, planner_node.py lines
77-92): resolve the user path against the base directory and require the
resolved path's string to start with the base directory's string.
Paths are modelled as lists of components from the filesystem root; `resolve`
eliminates `.`, empty components and `..` (symlinks are not modelled).  The
filesystem is an association list from resolved components to content. -/

/-- Helper for `splitSlash`: structural split on a separator character. -/
def splitCharAux (brk : Char) : List Char → List Char → List String
  | [], acc => [String.mk acc.reverse]
  | c :: rest, acc =>
      if c = brk then String.mk acc.reverse :: splitCharAux brk rest []
      else splitCharAux brk rest (c :: acc)

/-- Split a path string on `/`. -/
def splitSlash (p : String) : List String := splitCharAux '/' p.data []

/-- Process path components as `Path.resolve` does (absent symlinks):
skip `.` and empty components, let `..` drop the last component. -/
def resolveComponents : List String → List String → List String
  | acc, [] => acc
  | acc, c :: rest =>
      if c = "" ∨ c = "." then resolveComponents acc rest
      else if c = ".." then resolveComponents acc.dropLast rest
      else resolveComponents (acc ++ [c]) rest

/-- `(base / file_path).resolve()`: an absolute `file_path` ignores `base`. -/
def resolvePath (base : List String) (p : String) : List String :=
  if pyStartswith p "/" then resolveComponents [] (splitSlash p)
  else resolveComponents base (splitSlash p)

/-- `str(Path)` for an absolute path given by its components. -/
def renderPath : List String → String
  | [] => "/"
  | cs => "/" ++ String.intercalate "/" cs

/-- The message of the `ValueError` raised by `_get_safe_path`. -/
def traversalMsg (p : String) : String :=
  "Path traversal attempt detected. Access to " ++ apos ++ p ++ apos ++ " is denied."

/-- `_get_safe_path(file_path)`: resolve, then test
`str(safe_path).startswith(str(_secure_base_dir))`; on failure raise
`ValueError` (modelled as `Except.error` carrying `str(e)`). -/
def get_safe_path (base : List String) (p : String) : Except String (List String) :=
  let safe := resolvePath base p
  if pyStartswith (renderPath safe) (renderPath base) then .ok safe
  else .error (traversalMsg p)

/-- Filesystem: resolved path components ↦ stored content. -/
abbrev FS := List (List String × String)

/-- File lookup. -/
def fsGet (fs : FS) (k : List String) : Option String :=
  match fs.find? (fun e => decide (e.1 = k)) with
  | some e => some e.2
  | none => none

/-- File write (create or overwrite). -/
def fsSet (fs : FS) (k : List String) (v : String) : FS :=
  (k, v) :: fs.filter (fun e => decide (¬ e.1 = k))

/-- The error string for reading a missing file, `str(FileNotFoundError)`. -/
def fileNotFoundMsg (sp : List String) : String :=
  "[Errno 2] No such file or directory: " ++ apos ++ renderPath sp ++ apos

/-- `read_file(file_path, start_line_one_indexed,
end_line_one_indexed_inclusive)` from multi_agent_system.py lines 149-191.
The two optional line arguments are Python ints.  Text-mode reading applies
universal-newline translation; `readlines` then splits after each `\n`. -/
def read_file (fs : FS) (base : List String) (file_path : String)
    (start_line end_line : Option Int) : String :=
  match get_safe_path base file_path with
  | .error e => "Error reading file " ++ file_path ++ ": " ++ e
  | .ok sp =>
    match fsGet fs sp with
    | none => "Error reading file " ++ file_path ++ ": " ++ fileNotFoundMsg sp
    | some stored =>
      let lines := readlinesOf stored
      match start_line, end_line with
      | some s, some e =>
          let start_idx : Int := max 0 (s - 1)
          let end_idx : Int := min (lines.length : Int) e
          if end_idx ≤ start_idx then
            "Error: Invalid line range for " ++ file_path ++
              ". Start line must be before end line."
          else
            let content := String.join ((lines.drop start_idx.toNat).take
              (end_idx.toNat - start_idx.toNat))
            "File contents of " ++ file_path ++ " (lines " ++ toString s ++ "-" ++
              toString e ++ "):\n\n" ++ content
      | _, _ =>
          "File contents of " ++ file_path ++ " (entire file):\n\n" ++
            String.join lines

/-- The structured outcome of `write_file`; the Python function serialises
this dictionary with `json.dumps`, which the model leaves abstract. -/
inductive WriteResult where
  | failure (error : String)
  | created (file_path : String) (content : String) (message : String)
      (success : Bool)
  | replaced (file_path : String) (before_content after_content : String)
      (diff : DiffInfo) (message : String) (success : Bool)
deriving DecidableEq

/-- `write_file(file_path, content)` from multi_agent_system.py lines
193-270.  Returns the structured outcome and the updated filesystem.
`before_content` and the re-read `actual_content` go through text-mode
reads (newline translation); the write itself stores `content` unchanged
(POSIX `os.linesep`). -/
def write_file (base : List String) (fs : FS) (file_path content : String) :
    WriteResult × FS :=
  match get_safe_path base file_path with
  | .error e => (.failure ("Error writing to file " ++ file_path ++ ": " ++ e), fs)
  | .ok sp =>
    let file_exists := (fsGet fs sp).isSome
    let before_content := match fsGet fs sp with
      | some stored => translateNewlines stored
      | none => ""
    let fs2 := fsSet fs sp content
    let actual_content := translateNewlines content
    if file_exists then
      let diff_info := generate_diff before_content actual_content file_path
      let msg := "Successfully replaced content in " ++ file_path ++
        (if 0 < diff_info.total_changes then
          " (+" ++ toString diff_info.added_lines ++ " -" ++
            toString diff_info.removed_lines ++ " lines)"
        else " (no changes detected)")
      (.replaced file_path before_content actual_content diff_info msg
        (decide (0 < diff_info.total_changes) ||
          decide (¬ before_content = actual_content)), fs2)
    else
      let n := (pySplitlinesKeepends actual_content).length
      let msg := "Successfully created " ++ file_path ++
        (if 0 < n then " (" ++ toString n ++ " lines)" else "")
      (.created file_path actual_content msg (decide (actual_content ≠ "")), fs2)

/-! ## The command safety filter (planner_node.py) -/

/-- `SAFE_BASH_COMMANDS` from planner_node.py lines 38-64. -/
def SAFE_BASH_COMMANDS : List String :=
  ["ls", "ll", "dir", "find", "locate", "which", "whereis",
   "cat", "head", "tail", "less", "more", "file", "stat",
   "pwd", "whoami", "id", "groups", "env", "printenv",
   "ps", "top", "htop", "free", "df", "du", "lscpu", "lsblk",
   "uname", "hostname", "uptime", "date", "cal", "history",
   "ping", "nslookup", "dig", "host", "netstat", "ss", "lsof",
   "grep", "egrep", "fgrep", "awk", "sed", "sort", "uniq",
   "wc", "cut", "tr", "tee", "diff", "cmp", "comm",
   "tar", "zip", "unzip", "gzip", "gunzip", "zcat",
   "git", "python", "python3", "node", "npm", "pip", "pip3",
   "java", "javac", "gcc", "g++", "make", "cmake",
   "apt", "yum", "dnf", "brew", "conda", "docker"]

/-- A dangerous pattern `\b tok \b`: `src` is the Python regex source text
(used in the rejection reason), `tok` the literal token between the two
word boundaries. -/
structure DangerPattern where
  src : String
  tok : String
deriving DecidableEq

/-- `DANGEROUS_PATTERNS` from planner_node.py lines 67-74; every pattern has
the form `\b...\b`. -/
def DANGEROUS_PATTERNS : List DangerPattern :=
  [⟨"\\brm\\b", "rm"⟩, ⟨"\\bmv\\b", "mv"⟩, ⟨"\\bcp\\b", "cp"⟩,
   ⟨"\\bdd\\b", "dd"⟩, ⟨"\\bchmod\\b", "chmod"⟩, ⟨"\\bchown\\b", "chown"⟩,
   ⟨"\\bsu\\b", "su"⟩, ⟨"\\bsudo\\b", "sudo"⟩, ⟨"\\bkill\\b", "kill"⟩,
   ⟨"\\bkillall\\b", "killall"⟩, ⟨"\\bpkill\\b", "pkill"⟩,
   ⟨"\\breboot\\b", "reboot"⟩, ⟨"\\bshutdown\\b", "shutdown"⟩,
   ⟨"\\bhalt\\b", "halt"⟩, ⟨"\\binit\\b", "init"⟩,
   ⟨"\\bmount\\b", "mount"⟩, ⟨"\\bumount\\b", "umount"⟩,
   ⟨"\\bfdisk\\b", "fdisk"⟩, ⟨"\\bparted\\b", "parted"⟩,
   ⟨"\\b>\\b", ">"⟩, ⟨"\\b>>\\b", ">>"⟩, ⟨"\\b<\\b", "<"⟩,
   ⟨"\\b\\|\\b", "|"⟩, ⟨"\\b&\\b", "&"⟩, ⟨"\\b;\\b", ";"⟩,
   ⟨"\\bexec\\b", "exec"⟩, ⟨"\\beval\\b", "eval"⟩,
   ⟨"\\bsource\\b", "source"⟩, ⟨"\\b\\.\\b", "."⟩]

/-- ASCII `\w` of Python `re`. -/
def isWordChar (c : Char) : Bool := c.isAlphanum || c = '_'

/-- Whether the character at position `i` of `s` is a word character
(out-of-range counts as non-word). -/
def wordAtN (s : List Char) (i : Nat) : Bool :=
  match s.get? i with
  | some c => isWordChar c
  | none => false

/-- A `\b` word boundary immediately before position `p` of `s`. -/
def hasBoundary (s : List Char) (p : Nat) : Bool :=
  (match p with | 0 => false | q + 1 => wordAtN s q) != wordAtN s p

/-- `re.search(r"\b" tok r"\b", s, re.IGNORECASE)` for a literal token:
some offset carries the token (case-insensitively) with word boundaries on
both sides. -/
def regexSearchWB (s tok : String) : Bool :=
  let sl := (strLower s).data
  let tl := (strLower tok).data
  (List.range (sl.length + 1)).any (fun p =>
    subAt sl tl p && hasBoundary sl p && hasBoundary sl (p + tl.length))

/-- The first matching dangerous pattern, if any (patterns are tested in
list order, mirroring the `for` loop). -/
def findDangerous (cmd : String) : Option DangerPattern :=
  DANGEROUS_PATTERNS.find? (fun pat => regexSearchWB cmd pat.tok)

/-- `_is_command_safe(command)` from planner_node.py lines 161-195. -/
def is_command_safe (command : String) : Bool × String :=
  let command := pyStrip command
  match findDangerous command with
  | some pat => (false, "Command contains dangerous pattern: " ++ pat.src)
  | none =>
    let main_command := (pySplit command).headD ""
    if ¬ SAFE_BASH_COMMANDS.contains main_command then
      (false, "Command " ++ apos ++ main_command ++ apos ++
        " is not in the safe commands whitelist")
    else if main_command = "git" ∧
        (["push", "commit", "add", "rm", "reset"].any
          (fun d => containsSub (strLower command) d)) then
      (false, "Git write operations are not allowed")
    else if (main_command = "python" ∨ main_command = "python3" ∨
        main_command = "node") ∧ containsSub command "-c" then
      (false, "Code execution with -c flag is not allowed")
    else if main_command = "docker" ∧
        (["run", "exec", "start", "stop", "rm"].any
          (fun d => containsSub (strLower command) d)) then
      (false, "Docker container operations are not allowed")
    else (true, "Command is safe")

/-- Abstract outcome of the `subprocess.run` call of `execute_safe_bash`
(stdout, stderr, return code, or a timeout); left abstract because it is
real process I/O. -/
structure ShellOutcome where
  stdout : String
  stderr : String
  returncode : Int
  timedOut : Bool

/-- `execute_safe_bash(command, working_directory)` from planner_node.py
lines 197-254, with process execution abstracted by the `shell` oracle.
Returns the tool's string result and whether the shell was invoked. -/
def execute_safe_bash (shell : String → ShellOutcome) (base : List String)
    (isDir : List String → Bool) (command working_directory : String) :
    String × Bool :=
  let safe := is_command_safe command
  if ¬ safe.1 then
    ("Command rejected: " ++ safe.2 ++ "\nCommand: " ++ command, false)
  else
    match get_safe_path base working_directory with
    | .error e =>
        ("Error executing command " ++ apos ++ command ++ apos ++ ": " ++ e, false)
    | .ok wd =>
      if ¬ isDir wd then
        ("Error: Working directory " ++ apos ++ working_directory ++ apos ++
          " is not a valid directory.", false)
      else
        let r := shell command
        if r.timedOut then
          ("Command timed out (30s limit): " ++ command, true)
        else
          let stdout := if 5000 < r.stdout.length then
              (String.mk (r.stdout.data.take 5000)) ++ "\n... [Output truncated]"
            else r.stdout
          let stderr := if 2000 < r.stderr.length then
              (String.mk (r.stderr.data.take 2000)) ++ "\n... [Error output truncated]"
            else r.stderr
          ("Command: " ++ command ++ "\nExit Code: " ++ toString r.returncode ++
            "\nWorking Directory: " ++ working_directory ++ "\n\n" ++
            (if r.stdout ≠ "" then "STDOUT:\n" ++ stdout ++ "\n" else "") ++
            (if r.stderr ≠ "" then "STDERR:\n" ++ stderr ++ "\n" else ""), true)

/-! ## The routing decision (coordinator_node, multi_agent_system.py
lines 447-539)

The single LLM invocation is abstracted as an `Except String String`: an
exception anywhere in the `try` block, or the raw text content of the
response.  The function returns the selected expert name. -/

/-- The closed set of valid expert names (line 506). -/
def valid_experts : List String := ["CodeGenerator", "CodeReviewer", "Planner"]

/-- The expert selected by `coordinator_node` given the routing LLM
outcome: on exception, `CodeGenerator`; on a falsy (empty) content,
`CodeGenerator`; otherwise the stripped content, defaulted to
`CodeGenerator` when it is not a valid expert name. -/
def coordinator_choice (resp : Except String String) : String :=
  match resp with
  | .error _ => "CodeGenerator"
  | .ok content =>
      let expert_choice := if content = "" then "CodeGenerator" else pyStrip content
      if ¬ valid_experts.contains expert_choice then "CodeGenerator"
      else expert_choice

/-! ## The tool executor (tool_executor_node, multi_agent_system.py
lines 742-901)

The batch is the list of tool calls of the last assistant message.  Actual
tool execution is abstracted by an oracle `ex : ToolCall → ExecOutcome`
giving, per call, either the `result_content_for_llm` string the tool run
produces (covering both structured-JSON and plain results) or the message
of a raised exception.  Arguments are carried by their canonical
`json.dumps(args, sort_keys=True)` serialisation.  Timestamps are not
modelled.  Python locals that may be read before assignment
(`result_content_for_llm`) are modelled as `Option` values, and reading
`none` raises `NameError`, which propagates out of the node
(`Except.error`). -/

/-- One requested tool call. -/
structure ToolCall where
  name : String
  args : String
  id : String
deriving DecidableEq

/-- Outcome of actually invoking a tool. -/
inductive ExecOutcome where
  | returns (forLLM : String)
  | raises (err : String)
deriving DecidableEq

/-- `tool_signature = f"{tool_name}:{json.dumps(tool_args, sort_keys=True)}"`. -/
def toolSignature (c : ToolCall) : String := c.name ++ ":" ++ c.args

/-- The names in `available_tools` after merging the planner tools
(lines 806-828); the planner import succeeds in this repository. -/
def availableToolNames : List String :=
  ["write_file", "read_file", "find_and_replace_in_file", "list_directory",
   "execute_bash_command", "execute_safe_bash"]

/-- A record of `tool_call_history` (timestamp omitted). -/
structure HistoryRecord where
  signature : String
  tool_name : String
  success : Bool
deriving DecidableEq

/-- `"failed" not in result_content_for_llm.lower()`. -/
def successFlag (content : String) : Bool :=
  ! containsSub (strLower content) "failed"

/-- The per-run state fields `tool_executor_node` reads and writes. -/
structure AgentState where
  tool_call_count : Nat
  tool_failures : List (String × Nat)
  tool_call_history : List HistoryRecord
  recent_files : List String
deriving DecidableEq

/-- `state["tool_failures"].get(sig, 0)`. -/
def failuresGet (m : List (String × Nat)) (sig : String) : Nat :=
  match m.find? (fun e => decide (e.1 = sig)) with
  | some e => e.2
  | none => 0

/-- `state["tool_failures"][sig] = v`. -/
def failuresSet (m : List (String × Nat)) (sig : String) (v : Nat) :
    List (String × Nat) :=
  (sig, v) :: m.filter (fun e => decide (¬ e.1 = sig))

/-- The running state of the `for tool_call in last_message.tool_calls`
loop.  `messages` collects the `ToolMessage`s as `(tool_call_id, content)`
pairs; `lastForLLM` is the Python local `result_content_for_llm`
(initially unbound); `executed` instruments which calls actually invoked a
tool. -/
structure ExecLoopState where
  messages : List (String × String)
  failures : List (String × Nat)
  history : List HistoryRecord
  count : Nat
  lastForLLM : Option String
  executed : List ToolCall
deriving DecidableEq

/-- The message of the `NameError` raised when the disabled branch runs
before `result_content_for_llm` was ever assigned (the branch assigns the
dead local `result_content` instead). -/
def nameErrorMsg : String :=
  "NameError: name " ++ apos ++ "result_content_for_llm" ++ apos ++
    " is not defined"

/-- The dead string assigned to `result_content` in the disabled branch
(line 802); it is never used afterwards. -/
def disabledMsg (toolName : String) : String :=
  "Tool " ++ toolName ++
    " has failed too many times with these arguments and has been disabled."

/-- One iteration of the tool-call loop (lines 774-886). -/
def execStep (ex : ToolCall → ExecOutcome) (ls : ExecLoopState)
    (c : ToolCall) : Except String ExecLoopState :=
  let sig := toolSignature c
  let failure_count := failuresGet ls.failures sig
  if 3 ≤ failure_count then
    -- `result_content` is assigned `disabledMsg c.name` here, but the
    -- `ToolMessage` below reads `result_content_for_llm`.
    match ls.lastForLLM with
    | none => .error nameErrorMsg
    | some stale =>
        .ok { ls with
          messages := ls.messages ++ [(c.id, stale)],
          history := ls.history ++ [⟨sig, c.name, successFlag stale⟩],
          count := ls.count + 1 }
  else
    if availableToolNames.contains c.name then
      match ex c with
      | .returns r =>
          .ok { ls with
            messages := ls.messages ++ [(c.id, r)],
            history := ls.history ++ [⟨sig, c.name, successFlag r⟩],
            count := ls.count + 1,
            lastForLLM := some r,
            executed := ls.executed ++ [c] }
      | .raises e =>
          let msg := "Tool " ++ c.name ++ " failed: " ++ e
          .ok { ls with
            messages := ls.messages ++ [(c.id, msg)],
            failures := failuresSet ls.failures sig (failure_count + 1),
            history := ls.history ++ [⟨sig, c.name, successFlag msg⟩],
            count := ls.count + 1,
            lastForLLM := some msg,
            executed := ls.executed ++ [c] }
    else
      let msg := "Unknown tool: " ++ c.name
      .ok { ls with
        messages := ls.messages ++ [(c.id, msg)],
        history := ls.history ++ [⟨sig, c.name, successFlag msg⟩],
        count := ls.count + 1,
        lastForLLM := some msg }

/-- `MAX_TOTAL_TOOL_CALLS` (line 763). -/
def MAX_TOTAL_TOOL_CALLS : Nat := 15

/-- The terminal message synthesized when the ceiling is reached. -/
def maxToolCallsMsg : String :=
  "I" ++ apos ++ "ve reached the maximum number of tool calls (15) for this session. Please start a new conversation if you need more operations."

/-- What `tool_executor_node` returns: either the single terminal
assistant message, or the tool messages plus updated state fields. -/
inductive NodeOutput where
  | limitMessage (content : String)
  | results (messages : List (String × String)) (count : Nat)
      (failures : List (String × Nat)) (history : List HistoryRecord)
      (recent_files : List String) (executed : List ToolCall)
deriving DecidableEq

/-- `tool_executor_node` on a batch of requested tool calls (the entry
guard for a non-tool last message is outside this model).  An uncaught
`NameError` in the loop propagates to the caller as `Except.error`. -/
def tool_executor_node (ex : ToolCall → ExecOutcome) (st : AgentState)
    (batch : List ToolCall) : Except String NodeOutput :=
  if MAX_TOTAL_TOOL_CALLS ≤ st.tool_call_count then
    .ok (.limitMessage maxToolCallsMsg)
  else
    (batch.foldlM (execStep ex)
      ⟨[], st.tool_failures, st.tool_call_history, st.tool_call_count,
        none, []⟩).map
      (fun ls => .results ls.messages ls.count ls.failures ls.history
        st.recent_files ls.executed)

/-- The `recent_files_info` context string of `code_reviewer_node`
(lines 608-611): empty when the list is empty. -/
def recentFilesInfo (recent_files : List String) : String :=
  if recent_files = [] then ""
  else "\n\nCONTEXT: Recently created/modified files in this session: " ++
    String.intercalate ", " recent_files

/-! ## Helper lemmas -/

/-- A string of length zero is the empty string. -/
theorem length_zero_eq_empty (s : String) (h : s.length = 0) : s = "" := by
  cases s with
  | mk data =>
    cases data with
    | nil => rfl
    | cons c cs => simp [String.length] at h

/-- A string with a non-empty left part is non-empty. -/
theorem append_left_ne_empty (s t : String) (h : s ≠ "") : s ++ t ≠ "" := by
  intro heq
  have hl := congrArg String.length heq
  rw [String.length_append] at hl
  have h0 : String.length "" = 0 := rfl
  exact h (length_zero_eq_empty s (by omega))

/-! ## Claim C1 (path traversal) -/

/-- Claim C1 counterexample: with sandbox base `/out/ab`, the path
`../abx/escape.txt` resolves to `/out/abx/escape.txt`, which lies outside
the base directory (the base components are not a prefix of it), yet
`_get_safe_path` accepts it (the string-prefix check passes because
`/out/abx/...` starts with `/out/ab`) and `write_file` performs the write,
mutating the filesystem outside the sandbox instead of returning a
traversal-denied error. -/
theorem c1_counterexample :
    List.isPrefixOf ["out", "ab"] (resolvePath ["out", "ab"] "../abx/escape.txt") = false ∧
    get_safe_path ["out", "ab"] "../abx/escape.txt" = .ok ["out", "abx", "escape.txt"] ∧
    write_file ["out", "ab"] [] "../abx/escape.txt" "data" =
      (.created "../abx/escape.txt" "data"
        "Successfully created ../abx/escape.txt (1 lines)" true,
       [(["out", "abx", "escape.txt"], "data")]) :=
  ⟨by decide, rfl, rfl⟩

/-- Claim C1, amended: the sandbox check denies exactly the paths whose
canonical *string* does not start with the base directory's string (so
sibling directories sharing the base's string prefix slip through).  For
every path failing the string-prefix test, `_get_safe_path` raises the
traversal `ValueError`, and `write_file`/`read_file` return the
traversal-denied error before any filesystem access — in particular the
filesystem is unchanged. -/
theorem c1_amended (base : List String) (fs : FS) (p content : String)
    (h : pyStartswith (renderPath (resolvePath base p)) (renderPath base) = false) :
    get_safe_path base p = .error (traversalMsg p) ∧
    write_file base fs p content =
      (.failure ("Error writing to file " ++ p ++ ": " ++ traversalMsg p), fs) ∧
    read_file fs base p none none =
      "Error reading file " ++ p ++ ": " ++ traversalMsg p := by
  have hg : get_safe_path base p = .error (traversalMsg p) := by
    simp [get_safe_path, h]
  exact ⟨hg, by simp [write_file, hg], by simp [read_file, hg]⟩

/-- Claim C1 witness: `/etc/passwd` under base `/out/ab` fails the prefix
test and is denied. -/
theorem c1_witness :
    get_safe_path ["out", "ab"] "/etc/passwd" = .error (traversalMsg "/etc/passwd") :=
  (c1_amended ["out", "ab"] [] "/etc/passwd" "x" (by decide)).1

/-! ## Claim C2 (tool-call ceiling) -/

/-- Oracle and inputs for the C2 counterexample. -/
def c2ex : ToolCall → ExecOutcome := fun _ => .returns "listing ok"

def c2call1 : ToolCall := ⟨"list_directory", "args-a", "id1"⟩

def c2call2 : ToolCall := ⟨"list_directory", "args-b", "id2"⟩

def c2state : AgentState := ⟨14, [], [], []⟩

/-- Claim C2 counterexample: with the counter at 14, a batch of two calls
executes *both* calls — the second one after the counter has reached 15 —
ending at 16 with no terminal message; so a 16th tool can execute and the
"next requested tool call" after the 15th is not short-circuited. -/
theorem c2_counterexample :
    tool_executor_node c2ex c2state [c2call1, c2call2] =
      .ok (.results [("id1", "listing ok"), ("id2", "listing ok")] 16 []
        [⟨"list_directory:args-a", "list_directory", true⟩,
         ⟨"list_directory:args-b", "list_directory", true⟩]
        [] [c2call1, c2call2]) := rfl

/-- Claim C2, amended: the ceiling is enforced once per batch.  If the
counter is at least 15 when a tool-execution step starts, the whole batch
is replaced by the terminal "maximum tool calls" assistant message and no
tool executes; a batch that starts below 15 runs all its calls, even past
the ceiling. -/
theorem c2_amended (ex : ToolCall → ExecOutcome) (st : AgentState)
    (batch : List ToolCall) (h : MAX_TOTAL_TOOL_CALLS ≤ st.tool_call_count) :
    tool_executor_node ex st batch = .ok (.limitMessage maxToolCallsMsg) := by
  simp [tool_executor_node, h]

/-- Claim C2 witness: at a counter of 15, a nonempty batch is replaced by
the terminal message. -/
theorem c2_witness :
    tool_executor_node c2ex ⟨15, [], [], []⟩ [c2call1] =
      .ok (.limitMessage maxToolCallsMsg) :=
  c2_amended c2ex ⟨15, [], [], []⟩ [c2call1] (by decide)

/-! ## Claim C3 counterexample (the amended theorem follows later, after
the diagonal analysis of the matcher) -/

/-- Claim C3 counterexample: for before-content `""` and after-content
`"++x\n"` the single inserted diff line is `+++x\n`, which the counter
excludes as a header look-alike, so `total_changes = 0` although the
contents differ — refuting the claimed equivalence. -/
theorem c3_counterexample :
    (generate_diff "" "++x\n" "f").total_changes = 0 ∧ "" ≠ "++x\n" :=
  ⟨rfl, by decide⟩

/-! ## Claim C4 (command safety filter) -/

/-- Claim C4: a command that matches a dangerous pattern, or whose leading
token is not in the whitelist, is rejected by `_is_command_safe` with a
non-empty reason, and `execute_safe_bash` returns the rejection string
(with the reason verbatim) without invoking the shell. -/
theorem c4_command_filter (command : String)
    (h : (findDangerous (pyStrip command)).isSome = true ∨
         SAFE_BASH_COMMANDS.contains ((pySplit (pyStrip command)).headD "") = false) :
    (is_command_safe command).1 = false ∧
    (is_command_safe command).2 ≠ "" ∧
    ∀ shell base isDir wd,
      execute_safe_bash shell base isDir command wd =
        ("Command rejected: " ++ (is_command_safe command).2 ++
          "\nCommand: " ++ command, false) := by
  have hmain : (is_command_safe command).1 = false ∧ (is_command_safe command).2 ≠ "" := by
    cases hfd : findDangerous (pyStrip command) with
    | some pat =>
        have hres : is_command_safe command =
            (false, "Command contains dangerous pattern: " ++ pat.src) := by
          simp only [is_command_safe, hfd]
        rw [hres]
        exact ⟨rfl, append_left_ne_empty _ _ (by decide)⟩
    | none =>
        have hw : SAFE_BASH_COMMANDS.contains ((pySplit (pyStrip command)).headD "") = false := by
          rcases h with h | h
          · rw [hfd] at h; simp at h
          · exact h
        have hres : is_command_safe command =
            (false, "Command " ++ apos ++ (pySplit (pyStrip command)).headD "" ++ apos ++
              " is not in the safe commands whitelist") := by
          simp only [is_command_safe, hfd, hw]
          simp
        rw [hres]
        exact ⟨rfl, append_left_ne_empty _ _ (append_left_ne_empty _ _
          (append_left_ne_empty _ _ (by decide)))⟩
  refine ⟨hmain.1, hmain.2, fun shell base isDir wd => ?_⟩
  simp [execute_safe_bash, hmain.1]

/-- Claim C4 witness: `sudo ls` matches the `\bsudo\b` dangerous pattern
and is rejected with a non-empty reason. -/
theorem c4_witness :
    (is_command_safe "sudo ls").1 = false ∧ (is_command_safe "sudo ls").2 ≠ "" :=
  ⟨(c4_command_filter "sudo ls" (Or.inl (by decide))).1,
   (c4_command_filter "sudo ls" (Or.inl (by decide))).2.1⟩

/-! ## Claim C5 (failure disabling) -/

/-- Oracle and inputs for the C5 evaluation: `c5bad` has 3 recorded
failures; `c5ok` succeeds with a distinctive result. -/
def c5ex : ToolCall → ExecOutcome := fun c =>
  if c.id = "id-ok" then .returns "directory listing" else .returns "should not run"

def c5bad : ToolCall := ⟨"read_file", "args-bad", "id-bad"⟩

def c5ok : ToolCall := ⟨"list_directory", "args-ok", "id-ok"⟩

def c5state : AgentState := ⟨0, [("read_file:args-bad", 3)], [], []⟩

def c5exRaise : ToolCall → ExecOutcome := fun _ => .raises "boom"

/-- Claim C5 evaluated at the failing inputs: (1) when the first call of a
batch has a signature with 3 recorded failures, the disabled branch reads
the never-assigned local `result_content_for_llm` and the node raises
`NameError` — no "disabled" `ToolMessage` is produced at all; (2) when the
disabled call follows a successful call, it is skipped without executing
(only `c5ok` is executed and the failure counter stays at 3), but its
`ToolMessage` carries the *previous* call's result instead of the disabled
notice; (3) the failure counter is incremented (to 1) exactly when the
executed tool raises. -/
theorem c5_disabled_bug :
    tool_executor_node c5ex c5state [c5bad] = .error nameErrorMsg ∧
    tool_executor_node c5ex c5state [c5ok, c5bad] =
      .ok (.results [("id-ok", "directory listing"), ("id-bad", "directory listing")]
        2 [("read_file:args-bad", 3)]
        [⟨"list_directory:args-ok", "list_directory", true⟩,
         ⟨"read_file:args-bad", "read_file", true⟩]
        [] [c5ok]) ∧
    tool_executor_node c5exRaise ⟨0, [], [], []⟩ [c5ok] =
      .ok (.results [("id-ok", "Tool list_directory failed: boom")] 1
        [("list_directory:args-ok", 1)]
        [⟨"list_directory:args-ok", "list_directory", false⟩]
        [] [c5ok]) :=
  ⟨rfl, rfl, rfl⟩

/-! ## Claim C6 counterexample (the amended theorem follows after the
slicing lemmas) -/

/-- Filesystem for the C6 counterexample: a three-line file. -/
def c6fs : FS := [(["out", "ab", "f.txt"], "a\nb\nc\n")]

/-- Claim C6 counterexample: the range `(2, 2)` has `start ≥ end`, yet
`read_file` succeeds and returns exactly line 2 — the error is raised only
for `start > end` (after clamping), not for `start = end`. -/
theorem c6_counterexample :
    (2 : Int) ≥ 2 ∧
    read_file c6fs ["out", "ab"] "f.txt" (some 2) (some 2) =
      "File contents of f.txt (lines 2-2):\n\nb\n" :=
  ⟨by decide, rfl⟩

/-! ## Claim C7 counterexample (the amended theorem follows after the
round-trip lemmas) -/

/-- Claim C7 counterexample: writing `"a\r\nb"` and reading it back yields
the header-decorated string whose file text is `"a\nb"` — text-mode
reading translated the `\r\n`, so the result is not exactly the written
content. -/
theorem c7_counterexample :
    read_file (write_file ["out", "s"] [] "f.txt" "a\r\nb").2 ["out", "s"]
        "f.txt" none none =
      "File contents of f.txt (entire file):\n\na\nb" ∧
    ("File contents of f.txt (entire file):\n\na\nb" : String) ≠ "a\r\nb" ∧
    ("a\nb" : String) ≠ "a\r\nb" :=
  ⟨rfl, by decide, by decide⟩

/-! ## Claim C8 (routing fallback) -/

/-- Claim C8 counterexample: the raw routing output `" Planner "` is not
exactly one of the valid role names, yet the coordinator selects
`Planner` (it strips whitespace before validating), not the default
`CodeGenerator`. -/
theorem c8_counterexample :
    valid_experts.contains " Planner " = false ∧
    coordinator_choice (Except.ok " Planner ") = "Planner" ∧
    ("Planner" : String) ≠ "CodeGenerator" :=
  ⟨by decide, rfl, by decide⟩

/-- Claim C8, amended: the selected role is always a member of the closed
set of valid roles and routing never raises; the deterministic
`CodeGenerator` fallback applies on any exception and whenever the
*whitespace-stripped* output is not exactly a valid role name (a padded
valid name selects that role instead of the default). -/
theorem c8_amended (resp : Except String String) :
    valid_experts.contains (coordinator_choice resp) = true ∧
    (∀ e, resp = .error e → coordinator_choice resp = "CodeGenerator") ∧
    (∀ content, resp = .ok content →
      valid_experts.contains (pyStrip content) = false →
      coordinator_choice resp = "CodeGenerator") := by
  cases resp with
  | error e =>
      refine ⟨rfl, ?_, ?_⟩
      · intro e2 he; rfl
      · intro c hc hv; simp at hc
  | ok content =>
      refine ⟨?_, ?_, ?_⟩
      · simp only [coordinator_choice]
        by_cases hX : (if content = "" then "CodeGenerator" else pyStrip content) ∈ valid_experts
        · simp [hX]
        · simp [hX]
          decide
      · intro e he; simp at he
      · intro c hc hv
        cases hc
        have hv2 : ¬ (pyStrip content ∈ valid_experts) := by simpa using hv
        simp only [coordinator_choice]
        by_cases h0 : content = ""
        · simp [h0]
        · simp [h0, hv2]

/-- Claim C8 witness: a routing exception yields the default role. -/
theorem c8_witness :
    coordinator_choice (Except.error "connection timeout") = "CodeGenerator" :=
  (c8_amended (Except.error "connection timeout")).2.1 "connection timeout" rfl

/-! ## Claim C9 (recent-files tracking) -/

/-- Claim C9: `tool_executor_node` never adds anything to `recent_files` —
the returned list is always exactly the incoming `state["recent_files"]`
(the node only passes it through at line 898), so files touched by
`write_file`/`find_and_replace_in_file` are never recorded. -/
theorem c9_recent_files_pass_through (ex : ToolCall → ExecOutcome)
    (st : AgentState) (batch : List ToolCall) (msgs : List (String × String))
    (count : Nat) (fails : List (String × Nat)) (hist : List HistoryRecord)
    (rf : List String) (execd : List ToolCall)
    (h : tool_executor_node ex st batch =
      .ok (.results msgs count fails hist rf execd)) :
    rf = st.recent_files := by
  unfold tool_executor_node at h
  by_cases hc : MAX_TOTAL_TOOL_CALLS ≤ st.tool_call_count
  · rw [if_pos hc] at h
    simp at h
  · rw [if_neg hc] at h
    cases hfold : List.foldlM (execStep ex)
        (⟨[], st.tool_failures, st.tool_call_history, st.tool_call_count,
          none, []⟩ : ExecLoopState) batch with
    | error e => rw [hfold] at h; simp [Except.map] at h
    | ok ls =>
        rw [hfold] at h
        simp [Except.map] at h
        exact h.2.2.2.2.1.symm

/-- Oracle and inputs for the C9 witness: a successful `write_file` call. -/
def c9ex : ToolCall → ExecOutcome :=
  fun _ => .returns "Successfully created a.py (3 lines)"

def c9call : ToolCall := ⟨"write_file", "args-w", "id-w"⟩

/-- Claim C9 witness: after a step whose single call is a successful
`write_file`, `recent_files` is still the initial empty list, so the
touched file `a.py` is not present in it. -/
theorem c9_witness :
    ([] : List String) = (AgentState.mk 0 [] [] []).recent_files ∧
    ¬ ("a.py" ∈ ([] : List String)) :=
  ⟨c9_recent_files_pass_through c9ex ⟨0, [], [], []⟩ [c9call]
      [("id-w", "Successfully created a.py (3 lines)")] 1 []
      [⟨"write_file:args-w", "write_file", true⟩] [] [c9call] rfl,
   by decide⟩

/-! ## Claim C10 (per-call bookkeeping) -/

/-- Oracle and inputs for the C10 counterexample. -/
def c10ex : ToolCall → ExecOutcome := fun _ => .returns "x"

def c10bad : ToolCall := ⟨"write_file", "args-c10", "id-c10"⟩

def c10state : AgentState := ⟨5, [("write_file:args-c10", 4)], [], []⟩

/-- Claim C10 counterexample: a batch whose first call's signature is
disabled makes the node raise `NameError` (the unbound
`result_content_for_llm`), so that requested call produces *no*
`ToolMessage`, no history record, and no counter increment — refuting the
claim for skipped calls in this position. -/
theorem c10_counterexample :
    tool_executor_node c10ex c10state [c10bad] = .error nameErrorMsg := rfl

/-- Shape of a single successful loop iteration: exactly one message with
the call's id, one history record, one counter increment. -/
theorem execStep_shape (ex : ToolCall → ExecOutcome) (ls ls2 : ExecLoopState)
    (c : ToolCall) (h : execStep ex ls c = .ok ls2) :
    (∃ content, ls2.messages = ls.messages ++ [(c.id, content)]) ∧
    ls2.count = ls.count + 1 ∧
    ls2.history.length = ls.history.length + 1 := by
  unfold execStep at h
  by_cases h3 : 3 ≤ failuresGet ls.failures (toolSignature c)
  · rw [if_pos h3] at h
    cases hl : ls.lastForLLM with
    | none => rw [hl] at h; simp at h
    | some stale =>
        rw [hl] at h
        simp at h
        subst h
        exact ⟨⟨stale, rfl⟩, rfl, by simp⟩
  · rw [if_neg h3] at h
    by_cases hav : availableToolNames.contains c.name
    · rw [if_pos hav] at h
      cases hex : ex c with
      | returns r =>
          rw [hex] at h
          simp at h
          subst h
          exact ⟨⟨r, rfl⟩, rfl, by simp⟩
      | raises e =>
          rw [hex] at h
          simp at h
          subst h
          exact ⟨⟨"Tool " ++ c.name ++ " failed: " ++ e, rfl⟩, rfl, by simp⟩
    · rw [if_neg hav] at h
      simp at h
      subst h
      exact ⟨⟨"Unknown tool: " ++ c.name, rfl⟩, rfl, by simp⟩

/-- Shape of the whole loop when it finishes without raising. -/
theorem execLoop_shape (ex : ToolCall → ExecOutcome) :
    ∀ (batch : List ToolCall) (ls0 ls1 : ExecLoopState),
      List.foldlM (execStep ex) ls0 batch = .ok ls1 →
      ls1.messages.map Prod.fst = ls0.messages.map Prod.fst ++ batch.map ToolCall.id ∧
      ls1.count = ls0.count + batch.length ∧
      ls1.history.length = ls0.history.length + batch.length := by
  intro batch
  induction batch with
  | nil =>
      intro ls0 ls1 h
      have h2 : (Except.ok ls0 : Except String ExecLoopState) = .ok ls1 := h
      injection h2 with h3
      subst h3
      simp
  | cons c rest ih =>
      intro ls0 ls1 h
      rw [List.foldlM_cons] at h
      cases hstep : execStep ex ls0 c with
      | error e =>
          rw [hstep] at h
          exact nomatch (show (Except.error e : Except String ExecLoopState) = .ok ls1 from h)
      | ok ls2 =>
          rw [hstep] at h
          have h2 : List.foldlM (execStep ex) ls2 rest = .ok ls1 := h
          obtain ⟨⟨content, hm⟩, hc2, hh⟩ := execStep_shape ex ls0 ls2 c hstep
          obtain ⟨hm2, hc3, hh2⟩ := ih ls2 ls1 h2
          refine ⟨?_, ?_, ?_⟩
          · rw [hm2, hm]
            simp
          · rw [hc3, hc2]
            simp
            omega
          · rw [hh2, hh]
            simp
            omega
/-- Claim C10, amended: in a tool-execution step that neither
short-circuits on the 15-call ceiling nor raises the unbound-local
`NameError`, every requested call — including disabled-skipped and
unknown-tool calls — yields exactly one `ToolMessage` correlated to its
call id, one history record, and one counter increment, so such calls do
consume the ceiling budget. -/
theorem c10_amended (ex : ToolCall → ExecOutcome) (st : AgentState)
    (batch : List ToolCall) (msgs : List (String × String)) (count : Nat)
    (fails : List (String × Nat)) (hist : List HistoryRecord)
    (rf : List String) (execd : List ToolCall)
    (h : tool_executor_node ex st batch =
      .ok (.results msgs count fails hist rf execd)) :
    msgs.map Prod.fst = batch.map ToolCall.id ∧
    count = st.tool_call_count + batch.length ∧
    hist.length = st.tool_call_history.length + batch.length := by
  unfold tool_executor_node at h
  by_cases hc : MAX_TOTAL_TOOL_CALLS ≤ st.tool_call_count
  · rw [if_pos hc] at h
    simp at h
  · rw [if_neg hc] at h
    cases hfold : List.foldlM (execStep ex)
        (⟨[], st.tool_failures, st.tool_call_history, st.tool_call_count,
          none, []⟩ : ExecLoopState) batch with
    | error e => rw [hfold] at h; simp [Except.map] at h
    | ok ls =>
        rw [hfold] at h
        simp [Except.map] at h
        obtain ⟨hm, hcnt, hh⟩ := execLoop_shape ex batch _ ls hfold
        obtain ⟨hm1, hc1, hf1, hh1, hrf1, he1⟩ := h
        subst hm1; subst hc1; subst hh1
        simp at hm hcnt hh
        exact ⟨hm, hcnt, hh⟩

/-- Claim C10 witness: a concrete step with one successful call and one
unknown-tool call produces two correlated messages, two records, and a
counter increase of two. -/
theorem c10_witness :
    [("id1", "listing ok"), ("idU", "Unknown tool: nonexistent_tool")].map Prod.fst =
      [c2call1, ToolCall.mk "nonexistent_tool" "args-u" "idU"].map ToolCall.id ∧
    (16 : Nat) = 14 + 2 ∧
    ([⟨"list_directory:args-a", "list_directory", true⟩,
      ⟨"nonexistent_tool:args-u", "nonexistent_tool", true⟩] :
        List HistoryRecord).length = 0 + 2 :=
  c10_amended c2ex c2state [c2call1, ⟨"nonexistent_tool", "args-u", "idU"⟩]
    [("id1", "listing ok"), ("idU", "Unknown tool: nonexistent_tool")] 16 []
    [⟨"list_directory:args-a", "list_directory", true⟩,
     ⟨"nonexistent_tool:args-u", "nonexistent_tool", true⟩] [] [c2call1] rfl

/-! ## Claims C6 and C7, amended -/

/-- filterMap congruence on members. -/
theorem filterMap_congr_mem {α β : Type} (f g : α → Option β) :
    ∀ (l : List α), (∀ x ∈ l, f x = g x) → l.filterMap f = l.filterMap g := by
  intro l
  induction l with
  | nil => intro _; rfl
  | cons a l ih =>
      intro h
      rw [List.filterMap_cons, List.filterMap_cons, h a (by simp),
        ih (fun x hx => h x (by simp [hx]))]

/-- A drop/take slice described as a filterMap over the index range. -/
theorem range_filterMap_slice {α : Type} :
    ∀ (L : List α) (si ei : Nat),
      (List.range L.length).filterMap
        (fun k => if si ≤ k ∧ k < ei then L.get? k else none) =
      (L.drop si).take (ei - si) := by
  intro L
  induction L with
  | nil => intro si ei; simp
  | cons x R ih =>
      intro si ei
      rw [List.length_cons, List.range_succ_eq_map, List.filterMap_cons,
        List.filterMap_map]
      have hfun : ((fun k => if si ≤ k ∧ k < ei then (x :: R).get? k else none) ∘ Nat.succ)
          = (fun k => if si - 1 ≤ k ∧ k < ei - 1 then R.get? k else none) := by
        funext k
        show (if si ≤ k + 1 ∧ k + 1 < ei then (x :: R).get? (k + 1) else none)
          = if si - 1 ≤ k ∧ k < ei - 1 then R.get? k else none
        rw [if_congr (by omega : (si ≤ k + 1 ∧ k + 1 < ei) ↔ (si - 1 ≤ k ∧ k < ei - 1))
          rfl rfl]
        rfl
      rw [hfun, ih]
      cases si with
      | zero =>
          cases ei with
          | zero => simp
          | succ e2 => simp [Nat.succ_sub_one]
      | succ s2 =>
          have hc : ¬ (s2 + 1 ≤ 0 ∧ 0 < ei) := by omega
          simp only [if_neg hc]
          simp
          omega

/-- The 1-indexed inclusive line slice a `(start, end)` range request
denotes: the lines whose 1-based index lies in `[start, end]`. -/
def oneIndexedSlice (lines : List String) (s e : Int) : List String :=
  (List.range lines.length).filterMap (fun (k : Nat) =>
    if s ≤ (k : Int) + 1 ∧ (k : Int) + 1 ≤ e then lines.get? k else none)

/-- Claim C6, amended: for a readable in-sandbox file, the ranged read
fails with the invalid-range error exactly when the clamped end bound is
at most the clamped start index — i.e. when `start > end` after clamping
(a range with `start = end` inside the file succeeds) — and otherwise
returns the header plus exactly the lines whose 1-based index lies in
`[start, end]`. -/
theorem c6_amended (fs : FS) (base : List String) (p content : String)
    (sp : List String) (s e : Int)
    (hsafe : get_safe_path base p = .ok sp)
    (hfile : fsGet fs sp = some content) :
    (min ((readlinesOf content).length : Int) e ≤ max 0 (s - 1) →
      read_file fs base p (some s) (some e) =
        "Error: Invalid line range for " ++ p ++
          ". Start line must be before end line.") ∧
    (max 0 (s - 1) < min ((readlinesOf content).length : Int) e →
      read_file fs base p (some s) (some e) =
        "File contents of " ++ p ++ " (lines " ++ toString s ++ "-" ++
          toString e ++ "):\n\n" ++
          String.join (oneIndexedSlice (readlinesOf content) s e)) := by
  constructor
  · intro hcond
    simp only [read_file, hsafe, hfile]
    rw [if_pos hcond]
  · intro hcond
    simp only [read_file, hsafe, hfile]
    rw [if_neg (by omega)]
    have hcg := filterMap_congr_mem
      (fun (k : Nat) => if s ≤ (k : Int) + 1 ∧ (k : Int) + 1 ≤ e
        then (readlinesOf content).get? k else none)
      (fun (k : Nat) => if (max 0 (s - 1)).toNat ≤ k ∧
          k < (min ((readlinesOf content).length : Int) e).toNat
        then (readlinesOf content).get? k else none)
      (List.range (readlinesOf content).length)
      (by
        intro k hk
        rw [List.mem_range] at hk
        exact if_congr (by omega) rfl rfl)
    have hslice : oneIndexedSlice (readlinesOf content) s e =
        ((readlinesOf content).drop (max 0 (s - 1)).toNat).take
          ((min ((readlinesOf content).length : Int) e).toNat -
            (max 0 (s - 1)).toNat) := by
      unfold oneIndexedSlice
      rw [hcg]
      exact range_filterMap_slice (readlinesOf content) _ _
    rw [hslice]

/-- `write_file` stores exactly the given content at the resolved path,
whatever the pre-existing state. -/
theorem write_file_fs (base : List String) (fs : FS) (p content : String)
    (sp : List String) (hsafe : get_safe_path base p = .ok sp) :
    (write_file base fs p content).2 = fsSet fs sp content := by
  simp only [write_file, hsafe]
  by_cases he : (fsGet fs sp).isSome <;> simp [he]

/-- Lookup after an overwrite at the same key. -/
theorem fsGet_fsSet_self (fs : FS) (k : List String) (v : String) :
    fsGet (fsSet fs k v) k = some v := by
  simp [fsGet, fsSet, List.find?]

/-- Flattening the keep-newline split restores the character list. -/
theorem splitKeepNL_flatten : ∀ (l acc : List Char),
    (splitKeepNLAux l acc).flatten = acc.reverse ++ l := by
  intro l
  induction l with
  | nil =>
      intro acc
      by_cases h : acc.isEmpty
      · have : acc = [] := by cases acc with
          | nil => rfl
          | cons c r => simp at h
        simp [splitKeepNLAux, h, this]
      · simp [splitKeepNLAux, h]
  | cons c rest ih =>
      intro acc
      by_cases h : c = '\n'
      · subst h
        simp [splitKeepNLAux, ih]
      · simp [splitKeepNLAux, h, ih (c :: acc)]

/-- Joining `String.mk` pieces equals `String.mk` of the flattening. -/
theorem join_map_mk : ∀ (ls : List (List Char)),
    String.join (ls.map String.mk) = String.mk ls.flatten := by
  intro ls
  induction ls with
  | nil => rfl
  | cons a ls ih =>
      have hcons : ∀ (x : String) (l : List String),
          String.join (x :: l) = x ++ String.join l := by
        intro x l
        show List.foldl (· ++ ·) "" (x :: l) = x ++ List.foldl (· ++ ·) "" l
        have haux : ∀ (l2 : List String) (t : String),
            List.foldl (· ++ ·) t l2 = t ++ List.foldl (· ++ ·) "" l2 := by
          intro l2
          induction l2 with
          | nil => intro t; simp [List.foldl]
          | cons y l2 ih2 =>
              intro t
              show List.foldl (· ++ ·) (t ++ y) l2 =
                t ++ List.foldl (· ++ ·) ("" ++ y) l2
              rw [ih2 (t ++ y), ih2 ("" ++ y), String.empty_append,
                String.append_assoc]
        show List.foldl (· ++ ·) ("" ++ x) l = x ++ List.foldl (· ++ ·) "" l
        rw [String.empty_append, haux l x]
      rw [List.map_cons, hcons, ih]
      apply String.ext
      rw [String.data_append]
      rfl

/-- The full-file read content equals the newline-translated stored text. -/
theorem join_readlines (content : String) :
    String.join (readlinesOf content) = translateNewlines content := by
  unfold readlinesOf translateNewlines
  rw [join_map_mk, splitKeepNL_flatten]
  rfl

/-- Newline translation is the identity on carriage-return-free text. -/
theorem transNL_id : ∀ (l : List Char), (∀ c ∈ l, c ≠ '\r') →
    transNLAux l = l := by
  intro l
  induction l with
  | nil => intro _; rfl
  | cons c rest ih =>
      intro h
      have hc : c ≠ '\r' := h c (by simp)
      have hrest := ih (fun d hd => h d (by simp [hd]))
      rw [transNLAux.eq_def]
      split <;> simp_all

/-- Claim C7, amended: the read after a write returns the fixed header
followed by the file text; the file text is the written content with
universal-newline translation applied, hence exactly the written content
whenever it contains no carriage returns. -/
theorem c7_amended (base : List String) (fs : FS) (p content : String)
    (sp : List String) (hsafe : get_safe_path base p = .ok sp)
    (hcr : ∀ c ∈ content.data, c ≠ '\r') :
    read_file (write_file base fs p content).2 base p none none =
      "File contents of " ++ p ++ " (entire file):\n\n" ++ content := by
  rw [write_file_fs base fs p content sp hsafe]
  simp only [read_file, hsafe, fsGet_fsSet_self]
  rw [join_readlines]
  have : translateNewlines content = content := by
    apply String.ext
    show transNLAux content.data = content.data
    exact transNL_id content.data hcr
  rw [this]

/-- Claim C7 witness: a concrete CR-free write/read round trip. -/
theorem c7_witness :
    read_file (write_file ["out", "ab"] [] "notes.txt" "hello\nworld\n").2
        ["out", "ab"] "notes.txt" none none =
      "File contents of " ++ "notes.txt" ++ " (entire file):\n\n" ++ "hello\nworld\n" :=
  c7_amended ["out", "ab"] [] "notes.txt" "hello\nworld\n"
    ["out", "ab", "notes.txt"] rfl (by decide)

/-- Claim C6 witness: on a three-line file, the range `(4, 2)` has
`start > end` after clamping and fails; the range `(1, 2)` succeeds and
returns lines 1-2. -/
theorem c6_witness :
    read_file c6fs ["out", "ab"] "f.txt" (some 4) (some 2) =
      "Error: Invalid line range for " ++ "f.txt" ++
        ". Start line must be before end line." :=
  (c6_amended c6fs ["out", "ab"] "f.txt" "a\nb\nc\n" ["out", "ab", "f.txt"]
    4 2 rfl rfl).1 (by decide)

/-! ## Claim C3, amended: the diff of identical contents is empty -/

/-! ## Claim C3: diagonal analysis of the matcher on identical sequences

The goal is `unified_diff L L ff tf = []`.  The only nontrivial step is
that `find_longest_match` on identical sequences returns the whole range:
the dictionary phase always keeps a *diagonal* best match (an update with
`k > bestsize` can only happen at `j = i`), and the extension loops then
stretch any diagonal match to the full window. -/

/-- `List.range'` with unit step, peeled by one. -/
theorem range1_succ (s m : Nat) : List.range' s (m + 1) = s :: List.range' (s + 1) m := by
  simp [List.range']

/-- Splitting a unit-step `range'` at an interior point `i`. -/
theorem range1_split : ∀ (n s i : Nat), s ≤ i → i < s + n →
    List.range' s n =
      List.range' s (i - s) ++ i :: List.range' (i + 1) (s + n - (i + 1)) := by
  intro n
  induction n with
  | zero => intro s i h1 h2; omega
  | succ n ih =>
      intro s i h1 h2
      by_cases hsi : s = i
      · subst hsi
        have hz : s - s = 0 := by omega
        have hn : s + (n + 1) - (s + 1) = n := by omega
        rw [hz, hn, range1_succ]
        rfl
      · have hlt : s < i := by omega
        have hstep : i - s = (i - (s + 1)) + 1 := by omega
        rw [range1_succ, ih (s + 1) i (by omega) (by omega), hstep, range1_succ]
        have : s + 1 + n - (i + 1) = s + (n + 1) - (i + 1) := by omega
        rw [this]
        rfl

/-- The row-`i` iteration condition: `j` carries the row's value within the
window and that value is not popular. -/
def dcond (a b : List Line) (blo bhi : Nat) (i j : Nat) : Bool :=
  match a.get? i with
  | some x => decide (b.get? j = some x) && ! isPopular b x &&
      decide (blo ≤ j) && decide (j < bhi)
  | none => false

/-- Unfolding characterisation of `dcond`. -/
theorem dcond_spec (a b : List Line) (blo bhi i j : Nat) :
    dcond a b blo bhi i j = true ↔
      ∃ x, a.get? i = some x ∧ b.get? j = some x ∧ isPopular b x = false ∧
        blo ≤ j ∧ j < bhi := by
  unfold dcond
  cases hx : a.get? i with
  | none =>
      simp
  | some x =>
      simp only [Bool.and_eq_true, decide_eq_true_eq, Bool.not_eq_true']
      constructor
      · rintro ⟨⟨⟨h2, h3⟩, h4⟩, h5⟩
        exact ⟨x, rfl, h2, h3, h4, h5⟩
      · rintro ⟨y, hy, h2, h3, h4, h5⟩
        injection hy with hy2
        subst hy2
        exact ⟨⟨⟨h2, h3⟩, h4⟩, h5⟩

/-- The row list of `rowStep` is the filter of `dcond` over the positions
of `b`. -/
theorem windowPositions_eq (a b : List Line) (blo bhi i : Nat) (x : Line)
    (hx : a.get? i = some x) :
    windowPositions b x blo bhi =
      (List.range b.length).filter (fun j => dcond a b blo bhi i j) := by
  unfold windowPositions b2jGet dcond
  rw [hx]
  by_cases hp : isPopular b x
  · rw [if_pos hp]
    have h0 : List.filter (fun j => decide (blo ≤ j) && decide (j < bhi))
        ([] : List Nat) = [] := rfl
    rw [h0]
    symm
    simp only [List.filter_eq_nil_iff]
    intro j hj
    simp [hp]
  · rw [if_neg hp]
    rw [List.filter_filter]
    congr 1
    funext j
    have hp2 : isPopular b x = false := by
      cases hip : isPopular b x
      · rfl
      · exact absurd hip hp
    simp [hp2, Bool.and_comm, Bool.and_left_comm, Bool.and_assoc]

/-- The run-length function computed in the `j2len` dictionaries: for the
window `[lo, hi)`, `rfun i j` is the length of the run of equal, non-popular
values ending at row `i`, column `j` (0 outside the iteration condition). -/
def rfun (a b : List Line) (lo hi : Nat) : Nat → Nat → Nat
  | 0, j => if dcond a b lo hi 0 j then 1 else 0
  | i + 1, j =>
      if dcond a b lo hi (i + 1) j then
        (if lo ≤ i ∧ 1 ≤ j then rfun a b lo hi i (j - 1) else 0) + 1
      else 0

/-- `rfun` vanishes off the iteration condition. -/
theorem rfun_zero (a b : List Line) (lo hi i j : Nat)
    (h : dcond a b lo hi i j = false) : rfun a b lo hi i j = 0 := by
  cases i with
  | zero => simp [rfun, h]
  | succ i2 => simp [rfun, h]

/-- `rfun` is at least 1 on the iteration condition. -/
theorem rfun_pos (a b : List Line) (lo hi i j : Nat)
    (h : dcond a b lo hi i j = true) : 1 ≤ rfun a b lo hi i j := by
  cases i with
  | zero => simp [rfun, h]
  | succ i2 => simp [rfun, h]

/-- At the first row of the window, runs have length exactly 1. -/
theorem rfun_at_lo (a b : List Line) (lo hi j : Nat)
    (h : dcond a b lo hi lo j = true) : rfun a b lo hi lo j = 1 := by
  cases hlo : lo with
  | zero => subst hlo; simp [rfun, h]
  | succ l =>
      subst hlo
      have : ¬ (l + 1 ≤ l ∧ 1 ≤ j) := by omega
      simp [rfun, h, this]

/-- Runs fit inside the window: at row `i` they are at most `i + 1 - lo`. -/
theorem rfun_le (a b : List Line) (lo hi : Nat) :
    ∀ (i j : Nat), lo ≤ i → rfun a b lo hi i j ≤ i + 1 - lo := by
  intro i
  induction i with
  | zero =>
      intro j h
      by_cases hd : dcond a b lo hi 0 j = true
      · simp [rfun, hd]; omega
      · simp [rfun, hd]
  | succ i ih =>
      intro j h
      by_cases hd : dcond a b lo hi (i + 1) j = true
      · by_cases hb : lo ≤ i ∧ 1 ≤ j
        · have := ih (j - 1) hb.1
          simp [rfun, hd, hb]
          omega
        · simp [rfun, hd, hb]
          omega
      · simp [rfun, hd]

/-- Diagonal dominance on identical sequences: every run ending at `(i, j)`
is no longer than the diagonal run at `(min i j, min i j)`. -/
theorem rfun_dominated (L : List Line) (lo hi : Nat) :
    ∀ (i j : Nat), lo ≤ i → i < hi →
      rfun L L lo hi i j ≤ rfun L L lo hi (min i j) (min i j) := by
  intro i
  induction i with
  | zero =>
      intro j hlo hhi
      rcases Nat.eq_zero_or_pos j with hj | hj
      · subst hj; exact le_refl _
      · have hm : min 0 j = 0 := by omega
        rw [hm]
        by_cases hd : dcond L L lo hi 0 j = true
        · obtain ⟨x, hxi, hxj, hpop, hw1, hw2⟩ := (dcond_spec L L lo hi 0 j).mp hd
          have hd0 : dcond L L lo hi 0 0 = true :=
            (dcond_spec L L lo hi 0 0).mpr ⟨x, hxi, hxi, hpop, by omega, by omega⟩
          simp [rfun, hd, hd0]
        · simp [rfun, hd]
  | succ i ih =>
      intro j hlo hhi
      by_cases hd : dcond L L lo hi (i + 1) j = true
      case neg => simp [rfun, hd]
      case pos =>
      obtain ⟨x, hxi, hxj, hpop, hw1, hw2⟩ := (dcond_spec L L lo hi (i + 1) j).mp hd
      rcases Nat.lt_trichotomy j (i + 1) with hj | hj | hj
      · -- j ≤ i, the minimum is j
        have hm : min (i + 1) j = j := by omega
        rw [hm]
        have hdjj : dcond L L lo hi j j = true :=
          (dcond_spec L L lo hi j j).mpr ⟨x, hxj, hxj, hpop, hw1, hw2⟩
        by_cases hb : lo ≤ i ∧ 1 ≤ j
        · have hih := ih (j - 1) hb.1 (by omega)
          have hmin : min i (j - 1) = j - 1 := by omega
          rw [hmin] at hih
          -- unfold rfun at j = (j-1)+1
          obtain ⟨j2, hj2⟩ : ∃ j2, j = j2 + 1 := ⟨j - 1, by omega⟩
          subst hj2
          by_cases hlj : lo ≤ j2
          · have : (1:Nat) ≤ j2 + 1 := by omega
            simp [rfun, hd, hb, hdjj, hlj, this]
            simpa using hih
          · -- here j = lo, and the run below the window is empty
            have hjlo : j2 + 1 = lo := by omega
            have hz : rfun L L lo hi i j2 = 0 := by
              apply rfun_zero
              cases hdc : dcond L L lo hi i j2 with
              | false => rfl
              | true =>
                  obtain ⟨y, _, _, _, hy1, _⟩ := (dcond_spec L L lo hi i j2).mp hdc
                  omega
            have : ¬ (lo ≤ j2 ∧ 1 ≤ j2 + 1) := by omega
            simp [rfun, hd, hb, hdjj, this, hz]
        · have h1 := rfun_pos L L lo hi (j) (j) hdjj
          simp [rfun, hd, hb]
          omega
      · subst hj
        simp
      · -- j > i + 1, the minimum is i + 1
        have hm : min (i + 1) j = i + 1 := by omega
        rw [hm]
        have hdii : dcond L L lo hi (i + 1) (i + 1) = true :=
          (dcond_spec L L lo hi (i + 1) (i + 1)).mpr
            ⟨x, hxi, hxi, hpop, by omega, by omega⟩
        by_cases hbi : lo ≤ i
        · have hb : lo ≤ i ∧ 1 ≤ j := ⟨hbi, by omega⟩
          have hih := ih (j - 1) hbi (by omega)
          have hmin : min i (j - 1) = i := by omega
          rw [hmin] at hih
          have : (1:Nat) ≤ i + 1 := by omega
          simp [rfun, hd, hb, hdii, hbi, this]
          simpa using hih
        · have : ¬ (lo ≤ i ∧ 1 ≤ j) := by omega
          have h2 : ¬ (lo ≤ i ∧ 1 ≤ i + 1) := by omega
          simp [rfun, hd, hdii, this, h2]

/-- `range'` with unit step, last element peeled off. -/
theorem range1_concat (s : Nat) : ∀ (m : Nat),
    List.range' s (m + 1) = List.range' s m ++ [s + m] := by
  intro m
  induction m generalizing s with
  | zero => simp [List.range']
  | succ m ih =>
      rw [range1_succ s (m + 1), ih (s + 1), range1_succ s m]
      have : s + 1 + m = s + (m + 1) := by omega
      rw [this]
      rfl

/-- The best-match component of `innerStep`, separated from the dictionary
being built. -/
def bestStep (prev : J2Len) (i : Nat) (bst : Match3) (j : Nat) : Match3 :=
  if bst.size < dgetPred prev j + 1 then
    ⟨i + 1 - (dgetPred prev j + 1), j + 1 - (dgetPred prev j + 1),
     dgetPred prev j + 1⟩
  else bst

/-- The inner fold of a row splits into its dictionary part (a map over the
iterated positions) and its best part (a fold of `bestStep`). -/
theorem innerFold_proj (prev : J2Len) (i : Nat) :
    ∀ (js : List Nat) (nd : J2Len) (bst : Match3),
      js.foldl (innerStep prev i) (nd, bst) =
        (nd ++ js.map (fun j => (j, dgetPred prev j + 1)),
         js.foldl (bestStep prev i) bst) := by
  intro js
  induction js with
  | nil => intro nd bst; simp
  | cons j rest ih =>
      intro nd bst
      simp only [List.foldl_cons, List.map_cons]
      rw [show innerStep prev i (nd, bst) j =
        (nd ++ [(j, dgetPred prev j + 1)], bestStep prev i bst j) from rfl]
      rw [ih]
      simp

/-- If no iterated position beats the current best size, the best fold is
the identity. -/
theorem bestFold_no_update (prev : J2Len) (i : Nat) :
    ∀ (js : List Nat) (bst : Match3),
      (∀ j ∈ js, dgetPred prev j + 1 ≤ bst.size) →
      js.foldl (bestStep prev i) bst = bst := by
  intro js
  induction js with
  | nil => intro bst _; rfl
  | cons j rest ih =>
      intro bst h
      have h1 : ¬ bst.size < dgetPred prev j + 1 := by
        have := h j (by simp)
        omega
      simp only [List.foldl_cons]
      rw [show bestStep prev i bst j = bst from by unfold bestStep; rw [if_neg h1]]
      exact ih bst (fun j2 hj2 => h j2 (by simp [hj2]))

/-- Lookup in a dictionary built as a map over distinct keys. -/
theorem findRow (f : Nat → Nat) :
    ∀ (js : List Nat) (k : Nat),
      (js.map (fun j => (j, f j))).find? (fun e => decide (e.1 = k)) =
        if k ∈ js then some (k, f k) else none := by
  intro js
  induction js with
  | nil => intro k; simp
  | cons j rest ih =>
      intro k
      by_cases h : j = k
      · subst h
        simp [List.find?]
      · simp [List.find?, h, ih k, Ne.symm h]

/-- `dgetD` on a dictionary built as a map over positions. -/
theorem dgetD_mapRow (f : Nat → Nat) (js : List Nat) (k : Nat) :
    dgetD (js.map (fun j => (j, f j))) k = if k ∈ js then f k else 0 := by
  unfold dgetD
  rw [findRow]
  by_cases h : k ∈ js
  · rw [if_pos h, if_pos h]
  · rw [if_neg h, if_neg h]

/-- Faithfulness of the carried dictionary before processing row `i`: it
holds the run lengths of the previous row (none before the first row). -/
def rowFaithful (L : List Line) (d : J2Len) : Nat → Prop
  | 0 => ∀ k, dgetD d k = 0
  | i + 1 => ∀ k, dgetD d k = rfun L L 0 L.length i k

/-- The best-match invariant after processing all rows below `i`: the best
match is diagonal, fits in the sequence, and dominates every diagonal run
seen so far. -/
def goodBest (L : List Line) (best : Match3) (i : Nat) : Prop :=
  best.b = best.a ∧ best.a + best.size ≤ L.length ∧
    ∀ m, m < i → rfun L L 0 L.length m m ≤ best.size

/-- The key recurrence: on a faithful dictionary, the `k` computed by the
inner loop is exactly the run length `rfun`. -/
theorem kval (L : List Line) (d : J2Len) (i : Nat) (hf : rowFaithful L d i)
    (j : Nat) (hd : dcond L L 0 L.length i j = true) :
    dgetPred d j + 1 = rfun L L 0 L.length i j := by
  cases i with
  | zero =>
      cases j with
      | zero => simp [dgetPred, rfun, hd]
      | succ j2 => simp [dgetPred, rfun, hd, hf j2]
  | succ i2 =>
      cases j with
      | zero =>
          have h0 : ¬ ((0:Nat) ≤ i2 ∧ 1 ≤ (0:Nat)) := by omega
          simp [dgetPred, rfun, hd, h0]
      | succ j2 =>
          have h1 : (0:Nat) ≤ i2 ∧ 1 ≤ j2 + 1 := by omega
          simp [dgetPred, rfun, hd, h1, hf j2]

/-- One row of the dictionary phase on identical sequences preserves the
faithfulness and best-match invariants: an update to the best match can
only happen on the diagonal. -/
theorem rowStep_inv (L : List Line) (d : J2Len) (best : Match3) (i : Nat)
    (hi : i < L.length) (hf : rowFaithful L d i) (hg : goodBest L best i) :
    rowFaithful L (rowStep L L 0 L.length (d, best) i).1 (i + 1) ∧
      goodBest L (rowStep L L 0 L.length (d, best) i).2 (i + 1) := by
  obtain ⟨hg1, hg2, hg3⟩ := hg
  have hjs : (match L.get? i with
      | some x => windowPositions L x 0 L.length
      | none => ([] : List Nat)) =
      (List.range L.length).filter (fun j => dcond L L 0 L.length i j) := by
    cases hx : L.get? i with
    | none =>
        symm
        simp only [List.filter_eq_nil_iff]
        intro j hj hdc
        obtain ⟨x, hxi, _⟩ := (dcond_spec L L 0 L.length i j).mp hdc
        rw [hx] at hxi
        exact absurd hxi (by simp)
    | some x => exact windowPositions_eq L L 0 L.length i x hx
  have hmem : ∀ k, (k ∈ (List.range L.length).filter
      (fun j => dcond L L 0 L.length i j)) ↔
      dcond L L 0 L.length i k = true := by
    intro k
    simp only [List.mem_filter, List.mem_range]
    constructor
    · exact fun h => h.2
    · intro h
      refine ⟨?_, h⟩
      obtain ⟨x, _, _, _, _, hk⟩ := (dcond_spec L L 0 L.length i k).mp h
      exact hk
  have hstep : rowStep L L 0 L.length (d, best) i =
      (((List.range L.length).filter (fun j => dcond L L 0 L.length i j)).map
          (fun j => (j, dgetPred d j + 1)),
       ((List.range L.length).filter (fun j => dcond L L 0 L.length i j)).foldl
          (bestStep d i) best) := by
    show ((match L.get? i with
        | some x => windowPositions L x 0 L.length
        | none => ([] : List Nat))).foldl (innerStep d i) ([], best) = _
    rw [hjs, innerFold_proj]
    simp
  have hkval : ∀ j, dcond L L 0 L.length i j = true →
      dgetPred d j + 1 = rfun L L 0 L.length i j := kval L d i hf
  have hfaith : rowFaithful L (((List.range L.length).filter
      (fun j => dcond L L 0 L.length i j)).map
        (fun j => (j, dgetPred d j + 1))) (i + 1) := by
    intro k
    rw [dgetD_mapRow]
    by_cases hk : k ∈ (List.range L.length).filter
        (fun j => dcond L L 0 L.length i j)
    · rw [if_pos hk]
      exact hkval k ((hmem k).mp hk)
    · rw [if_neg hk]
      symm
      apply rfun_zero
      cases hdc : dcond L L 0 L.length i k with
      | false => rfl
      | true => exact absurd ((hmem k).mpr hdc) hk
  rw [hstep]
  refine ⟨hfaith, ?_⟩
  by_cases hdii : dcond L L 0 L.length i i = true
  case neg =>
      have hdiif : dcond L L 0 L.length i i = false := by
        cases h : dcond L L 0 L.length i i with
        | false => rfl
        | true => exact absurd h hdii
      have hnone : ∀ j, dcond L L 0 L.length i j = false := by
        intro j
        cases h : dcond L L 0 L.length i j with
        | false => rfl
        | true =>
            obtain ⟨x, hxi, _, hpop, _, _⟩ := (dcond_spec L L 0 L.length i j).mp h
            have : dcond L L 0 L.length i i = true :=
              (dcond_spec L L 0 L.length i i).mpr ⟨x, hxi, hxi, hpop, by omega, hi⟩
            exact absurd this hdii
      have hjse : (List.range L.length).filter
          (fun j => dcond L L 0 L.length i j) = [] := by
        simp only [List.filter_eq_nil_iff]
        intro j hj
        simp [hnone j]
      rw [hjse]
      simp only [List.foldl_nil]
      refine ⟨hg1, hg2, ?_⟩
      intro m hm
      rcases Nat.lt_or_ge m i with h2 | h2
      · exact hg3 m h2
      · have hmi : m = i := by omega
        subst hmi
        rw [rfun_zero L L 0 L.length m m hdiif]
        omega
  case pos =>
      have hsplit : List.range L.length =
          List.range' 0 i ++ i :: List.range' (i + 1) (L.length - (i + 1)) := by
        rw [List.range_eq_range']
        have h := range1_split L.length 0 i (by omega) (by omega)
        simpa using h
      have hjsplit : (List.range L.length).filter
          (fun j => dcond L L 0 L.length i j) =
          (List.range' 0 i).filter (fun j => dcond L L 0 L.length i j) ++
            i :: (List.range' (i + 1) (L.length - (i + 1))).filter
              (fun j => dcond L L 0 L.length i j) := by
        rw [hsplit, List.filter_append]
        congr 1
        simp [List.filter_cons, hdii]
      have hb1 : ((List.range' 0 i).filter
          (fun j => dcond L L 0 L.length i j)).foldl (bestStep d i) best = best := by
        apply bestFold_no_update
        intro j hj
        have hjr := List.mem_filter.mp hj
        have hjlt : j < i := by
          have := List.mem_range'_1.mp hjr.1
          omega
        rw [hkval j hjr.2]
        calc rfun L L 0 L.length i j
            ≤ rfun L L 0 L.length (min i j) (min i j) :=
              rfun_dominated L 0 L.length i j (by omega) hi
          _ = rfun L L 0 L.length j j := by
              rw [Nat.min_eq_right (by omega : j ≤ i)]
          _ ≤ best.size := hg3 j hjlt
      have hki : dgetPred d i + 1 = rfun L L 0 L.length i i := hkval i hdii
      have hle : rfun L L 0 L.length i i ≤ i + 1 := by
        have h := rfun_le L L 0 L.length i i (by omega)
        omega
      have hb2 : (bestStep d i best i).b = (bestStep d i best i).a ∧
          (bestStep d i best i).a + (bestStep d i best i).size ≤ L.length ∧
          (∀ m, m < i + 1 →
            rfun L L 0 L.length m m ≤ (bestStep d i best i).size) := by
        unfold bestStep
        by_cases hup : best.size < dgetPred d i + 1
        · rw [if_pos hup]
          refine ⟨rfl, ?_, ?_⟩
          · show (i + 1 - (dgetPred d i + 1)) + (dgetPred d i + 1) ≤ L.length
            omega
          · intro m hm
            show rfun L L 0 L.length m m ≤ dgetPred d i + 1
            rcases Nat.lt_or_ge m i with h2 | h2
            · have := hg3 m h2
              omega
            · have hmi : m = i := by omega
              subst hmi
              omega
        · rw [if_neg hup]
          refine ⟨hg1, hg2, ?_⟩
          intro m hm
          rcases Nat.lt_or_ge m i with h2 | h2
          · exact hg3 m h2
          · have hmi : m = i := by omega
            subst hmi
            omega
      have hb3 : ((List.range' (i + 1) (L.length - (i + 1))).filter
          (fun j => dcond L L 0 L.length i j)).foldl
            (bestStep d i) (bestStep d i best i) = bestStep d i best i := by
        apply bestFold_no_update
        intro j hj
        have hjr := List.mem_filter.mp hj
        have hjgt : i < j := by
          have := List.mem_range'_1.mp hjr.1
          omega
        rw [hkval j hjr.2]
        calc rfun L L 0 L.length i j
            ≤ rfun L L 0 L.length (min i j) (min i j) :=
              rfun_dominated L 0 L.length i j (by omega) hi
          _ = rfun L L 0 L.length i i := by
              rw [Nat.min_eq_left (by omega : i ≤ j)]
          _ ≤ (bestStep d i best i).size := hb2.2.2 i (by omega)
      rw [hjsplit, List.foldl_append]
      rw [hb1]
      simp only [List.foldl_cons]
      rw [hb3]
      exact ⟨hb2.1, hb2.2.1, hb2.2.2⟩

/-- The dictionary-phase fold on identical sequences keeps both invariants
through any prefix of the rows. -/
theorem dictFold_inv (L : List Line) :
    ∀ (c : Nat), c ≤ L.length →
      rowFaithful L ((List.range' 0 c).foldl (rowStep L L 0 L.length)
        ([], ⟨0, 0, 0⟩)).1 c ∧
      goodBest L ((List.range' 0 c).foldl (rowStep L L 0 L.length)
        ([], ⟨0, 0, 0⟩)).2 c := by
  intro c
  induction c with
  | zero =>
      intro _
      constructor
      · intro k; rfl
      · exact ⟨rfl, by simp, fun m hm => absurd hm (by omega)⟩
  | succ c ih =>
      intro h
      have h2 := ih (by omega)
      rw [range1_concat 0 c, List.foldl_append]
      simp only [List.foldl_cons, List.foldl_nil, Nat.zero_add]
      exact rowStep_inv L _ _ c (by omega) h2.1 h2.2

/-- The dictionary phase on identical sequences yields a diagonal best
match that fits inside the sequence. -/
theorem dictPhase_inv (L : List Line) :
    (dictPhase L L 0 L.length 0 L.length).b =
        (dictPhase L L 0 L.length 0 L.length).a ∧
      (dictPhase L L 0 L.length 0 L.length).a +
        (dictPhase L L 0 L.length 0 L.length).size ≤ L.length := by
  have h := (dictFold_inv L L.length (le_refl _)).2
  unfold dictPhase
  simp only [Nat.sub_zero]
  exact ⟨h.1, h.2.1⟩

/-- On identical sequences, the backward extension loop pulls a diagonal
match all the way to the start. -/
theorem extendBack_diag (L : List Line) :
    ∀ (fuel bi bs : Nat), bi ≤ fuel →
      extendBackFuel L L 0 0 fuel bi bi bs = ⟨0, 0, bs + bi⟩ := by
  intro fuel
  induction fuel with
  | zero =>
      intro bi bs h
      have hbi : bi = 0 := by omega
      subst hbi
      rfl
  | succ fuel ih =>
      intro bi bs h
      cases bi with
      | zero =>
          unfold extendBackFuel
          rw [if_neg (by rintro ⟨h1, _⟩; omega)]
          rfl
      | succ bi2 =>
          unfold extendBackFuel
          rw [if_pos ⟨by omega, by omega, by simp [isBJunk], rfl⟩]
          have ha : bi2 + 1 - 1 = bi2 := by omega
          rw [ha, ih bi2 (bs + 1) (by omega)]
          have hb : bs + 1 + bi2 = bs + (bi2 + 1) := by omega
          rw [hb]

/-- On identical sequences, the forward extension loop pushes a diagonal
match anchored at 0 all the way to the end. -/
theorem extendFwd_diag (L : List Line) (n : Nat) :
    ∀ (fuel s : Nat), s ≤ n → n - s ≤ fuel →
      extendFwdFuel L L n n fuel 0 0 s = ⟨0, 0, n⟩ := by
  intro fuel
  induction fuel with
  | zero =>
      intro s h1 h2
      have hs : s = n := by omega
      subst hs
      rfl
  | succ fuel ih =>
      intro s h1 h2
      by_cases hs : s < n
      · unfold extendFwdFuel
        rw [if_pos ⟨by omega, by omega, by simp [isBJunk], rfl⟩]
        exact ih (s + 1) (by omega) (by omega)
      · have hsn : s = n := by omega
        subst hsn
        unfold extendFwdFuel
        rw [if_neg (by rintro ⟨h3, _⟩; omega)]

/-- The backward junk extension is the identity: `bjunk` is empty. -/
theorem extendJunkBack_id (a b : List Line) (alo blo fuel bi bj bs : Nat) :
    extendJunkBackFuel a b alo blo fuel bi bj bs = ⟨bi, bj, bs⟩ := by
  cases fuel with
  | zero => rfl
  | succ f =>
      unfold extendJunkBackFuel
      rw [if_neg (by rintro ⟨_, _, h3, _⟩; simp [isBJunk] at h3)]

/-- The forward junk extension is the identity: `bjunk` is empty. -/
theorem extendJunkFwd_id (a b : List Line) (ahi bhi fuel bi bj bs : Nat) :
    extendJunkFwdFuel a b ahi bhi fuel bi bj bs = ⟨bi, bj, bs⟩ := by
  cases fuel with
  | zero => rfl
  | succ f =>
      unfold extendJunkFwdFuel
      rw [if_neg (by rintro ⟨_, _, h3, _⟩; simp [isBJunk] at h3)]

/-- `find_longest_match` on identical sequences over the full range returns
the whole sequence as one match. -/
theorem flm_diag (L : List Line) :
    find_longest_match L L 0 L.length 0 L.length = ⟨0, 0, L.length⟩ := by
  have hd := dictPhase_inv L
  have h2 := hd.2
  simp only [find_longest_match]
  rw [hd.1]
  rw [extendBack_diag L (dictPhase L L 0 L.length 0 L.length).a
    (dictPhase L L 0 L.length 0 L.length).a
    (dictPhase L L 0 L.length 0 L.length).size (le_refl _)]
  dsimp only
  rw [extendFwd_diag L L.length L.length
    ((dictPhase L L 0 L.length 0 L.length).size +
      (dictPhase L L 0 L.length 0 L.length).a) (by omega) (by omega)]
  dsimp only
  rw [extendJunkBack_id]
  dsimp only
  rw [extendJunkFwd_id]

/-- On identical non-empty sequences the queue loop performs exactly one
pop: the full-range match triggers neither recursion push. -/
theorem mbLoop_self (L : List Line) (h : L ≠ []) :
    mbLoop L L (L.length + L.length + 1) [(0, L.length, 0, L.length)] [] =
      [⟨0, 0, L.length⟩] := by
  have hn : 0 < L.length := List.length_pos.mpr h
  have hm := flm_diag L
  have h1 : ¬ ((0:Nat) < (0:Nat) ∧ (0:Nat) < (0:Nat)) := by omega
  have h2 : ¬ (0 + L.length < L.length ∧ 0 + L.length < L.length) := by omega
  simp only [mbLoop, hm]
  rw [if_pos hn, if_neg h1, if_neg h2]
  simp only [List.append_nil, List.nil_append]
  obtain ⟨f2, hf2⟩ : ∃ f2, L.length + L.length = f2 + 1 :=
    ⟨L.length + L.length - 1, by omega⟩
  rw [hf2]
  simp only [mbLoop]

/-- `get_matching_blocks` on identical non-empty sequences: the whole
sequence as one block, then the sentinel. -/
theorem get_matching_blocks_self (L : List Line) (h : L ≠ []) :
    get_matching_blocks L L =
      [⟨0, 0, L.length⟩, ⟨L.length, L.length, 0⟩] := by
  have hne : L.length ≠ 0 := by
    intro h0
    exact h (List.length_eq_zero.mp h0)
  simp only [get_matching_blocks]
  rw [mbLoop_self L h]
  simp only [sortBlocks, insertSorted]
  simp only [mergeLoop]
  simp [hne]

/-- `get_opcodes` on identical non-empty sequences is a single `equal`
opcode spanning everything. -/
theorem get_opcodes_self (L : List Line) (h : L ≠ []) :
    get_opcodes L L = [⟨Tag.equal, 0, L.length, 0, L.length⟩] := by
  have hne : L.length ≠ 0 := by
    intro h0
    exact h (List.length_eq_zero.mp h0)
  simp only [get_opcodes]
  rw [get_matching_blocks_self L h]
  simp only [opcodesLoop]
  simp [hne]

/-- `get_grouped_opcodes` on identical sequences is empty: the single
clamped `equal` group is suppressed. -/
theorem get_grouped_opcodes_self (L : List Line) : get_grouped_opcodes L L 3 = [] := by
  by_cases hL : L = []
  · subst hL
    rfl
  · have hne : L.length ≠ 0 := by
      intro h0
      exact hL (List.length_eq_zero.mp h0)
    have hop := get_opcodes_self L hL
    simp only [get_grouped_opcodes]
    rw [hop]
    have h6 : ¬ (Tag.equal = Tag.equal ∧
        6 < min L.length (max 0 (L.length - 3) + 3) - max 0 (L.length - 3)) := by
      rintro ⟨_, hlt⟩
      omega
    simp only [clampFirst, clampLast]
    simp [groupedLoop, h6]
    omega

/-- `unified_diff` of a sequence against itself is empty. -/
theorem unified_diff_self (L : List Line) (ff tf : String) :
    unified_diff L L ff tf = [] := by
  by_cases hL : L = []
  · subst hL
    rfl
  · simp only [unified_diff]
    rw [get_grouped_opcodes_self L]

/-- Claim C3 (corrected): for every before/after content pair the payload of
the diff helper satisfies `added_lines + removed_lines = total_changes`, and
equal contents always produce `total_changes = 0`.  The converse direction
of the biconditional claimed by the spec is refuted by `c3_counterexample`:
the helper counts `+`-lines while excluding `+++`-lines, so an inserted line
whose text itself begins with `++` is not counted. -/
theorem c3_amended (before_content after_content file_path : String) :
    (generate_diff before_content after_content file_path).added_lines +
        (generate_diff before_content after_content file_path).removed_lines =
      (generate_diff before_content after_content file_path).total_changes ∧
      (before_content = after_content →
        (generate_diff before_content after_content file_path).total_changes = 0) := by
  constructor
  · rfl
  · intro h
    subst h
    simp only [generate_diff]
    rw [unified_diff_self]
    rfl

/-- Witness for claim C3: the implication of `c3_amended` applied at equal
concrete contents. -/
theorem c3_witness : (generate_diff "x\n" "x\n" "f").total_changes = 0 :=
  (c3_amended "x\n" "x\n" "f").2 rfl
